import Mathlib

/-!
Verification development for the BVH-to-DEF retargeting module
(static/viewer/retarget.js, the current variant of retargetBVHToDefClip).

The JavaScript code is shallowly embedded over exact rational arithmetic:
THREE.Quaternion and THREE.Vector3 become records of rationals, and the
float operations become their exact counterparts.  Square roots (used by
the normalize operations) are modelled by ratSqrt, which returns the exact
square root whenever the radicand is a perfect rational square - which is
the case in every unit-norm situation the module's numeric policy is
about - and 0 otherwise (an irrational length is not representable in an
exact rational embedding at all).
-/

set_option maxRecDepth 4000

/-!
Rational arithmetic is performed through the kernel-reducible wrappers below
(the Batteries field operations on Rat are irreducible, which would make the
embedding impossible to evaluate inside the kernel); each wrapper is proved
equal to the corresponding field operation.
-/

def radd (a b : ℚ) : ℚ := mkRat (a.num * b.den + b.num * a.den) (a.den * b.den)

def rsub (a b : ℚ) : ℚ := mkRat (a.num * b.den - b.num * a.den) (a.den * b.den)

def rmul (a b : ℚ) : ℚ := mkRat (a.num * b.num) (a.den * b.den)

def rdiv (a b : ℚ) : ℚ := Rat.divInt (a.num * b.den) (a.den * b.num)

theorem radd_eq (a b : ℚ) : radd a b = a + b := (Rat.add_def' a b).symm

theorem rsub_eq (a b : ℚ) : rsub a b = a - b := (Rat.sub_def' a b).symm

theorem rmul_eq (a b : ℚ) : rmul a b = a * b := (Rat.mul_eq_mkRat a b).symm

theorem rdiv_eq (a b : ℚ) : rdiv a b = a / b := (Rat.div_def' a b).symm

/-- Exact rational model of THREE.Quaternion, component order (x, y, z, w). -/
structure Quat where
  x : ℚ
  y : ℚ
  z : ℚ
  w : ℚ
deriving DecidableEq, Repr

/-- Identity quaternion, the value of new THREE.Quaternion(). -/
def qid : Quat := ⟨0, 0, 0, 1⟩

/-- Zero quaternion, the initial content of a Float32Array slot. -/
def qzero : Quat := ⟨0, 0, 0, 0⟩

/-- Hamilton product, as computed by THREE.Quaternion.multiplyQuaternions(a, b). -/
def qmul (a b : Quat) : Quat :=
  ⟨rsub (radd (radd (rmul a.x b.w) (rmul a.w b.x)) (rmul a.y b.z)) (rmul a.z b.y),
   rsub (radd (radd (rmul a.y b.w) (rmul a.w b.y)) (rmul a.z b.x)) (rmul a.x b.z),
   rsub (radd (radd (rmul a.z b.w) (rmul a.w b.z)) (rmul a.x b.y)) (rmul a.y b.x),
   rsub (rsub (rsub (rmul a.w b.w) (rmul a.x b.x)) (rmul a.y b.y)) (rmul a.z b.z)⟩

/-- THREE.Quaternion.invert, which is conjugation (the code relies on unit quaternions). -/
def qconj (q : Quat) : Quat := ⟨-q.x, -q.y, -q.z, q.w⟩

/-- Squared norm of a quaternion. -/
def qnormSq (q : Quat) : ℚ :=
  radd (radd (radd (rmul q.x q.x) (rmul q.y q.y)) (rmul q.z q.z)) (rmul q.w q.w)

/-- Fuel-bounded Newton iteration for the integer square root (a reducible
stand-in for Nat.sqrt, whose well-founded recursion the kernel cannot
evaluate). -/
def natSqrtIter : ℕ → ℕ → ℕ → ℕ
  | 0, _, g => g
  | fuel + 1, n, g =>
    let g' := (g + n / g) / 2
    if g' < g then natSqrtIter fuel n g' else g

def natSqrt (n : ℕ) : ℕ :=
  if n ≤ 1 then n else natSqrtIter n n (n / 2)

/-- Exact square root on ℚ: the rational square root when one exists, 0
otherwise (the candidate is validated by squaring, so the result does not
depend on the integer square-root routine being exact). -/
def ratSqrt (q : ℚ) : ℚ :=
  let n : ℚ := mkRat (natSqrt q.num.toNat) (natSqrt q.den)
  if rmul n n = q then n else 0

/-- THREE.Quaternion.normalize: divide by the length, or produce the identity
quaternion when the length is 0 (exact-arithmetic model via ratSqrt). -/
def qnormalize (q : Quat) : Quat :=
  let l := ratSqrt (qnormSq q)
  if l = 0 then ⟨0, 0, 0, 1⟩
  else ⟨rdiv q.x l, rdiv q.y l, rdiv q.z l, rdiv q.w l⟩

/-- Exact rational model of THREE.Vector3. -/
structure Vec3 where
  x : ℚ
  y : ℚ
  z : ℚ
deriving DecidableEq, Repr

def vzero : Vec3 := ⟨0, 0, 0⟩

def vadd (a b : Vec3) : Vec3 := ⟨radd a.x b.x, radd a.y b.y, radd a.z b.z⟩

def vsub (a b : Vec3) : Vec3 := ⟨rsub a.x b.x, rsub a.y b.y, rsub a.z b.z⟩

def vdot (a b : Vec3) : ℚ :=
  radd (radd (rmul a.x b.x) (rmul a.y b.y)) (rmul a.z b.z)

def vLengthSq (v : Vec3) : ℚ :=
  radd (radd (rmul v.x v.x) (rmul v.y v.y)) (rmul v.z v.z)

/-- THREE.Vector3.normalize: divideScalar(length or 1), so the zero vector stays zero. -/
def vnormalize (v : Vec3) : Vec3 :=
  let l := ratSqrt (vLengthSq v)
  let d := if l = 0 then 1 else l
  ⟨rdiv v.x d, rdiv v.y d, rdiv v.z d⟩

/-- THREE.Vector3.applyQuaternion(q): rotate v by q via t = 2 (q.xyz x v),
v + q.w t + q.xyz x t. -/
def applyQuaternion (q : Quat) (v : Vec3) : Vec3 :=
  let tx := rmul 2 (rsub (rmul q.y v.z) (rmul q.z v.y))
  let ty := rmul 2 (rsub (rmul q.z v.x) (rmul q.x v.z))
  let tz := rmul 2 (rsub (rmul q.x v.y) (rmul q.y v.x))
  ⟨radd (radd v.x (rmul q.w tx)) (rsub (rmul q.y tz) (rmul q.z ty)),
   radd (radd v.y (rmul q.w ty)) (rsub (rmul q.z tx) (rmul q.x tz)),
   radd (radd v.z (rmul q.w tz)) (rsub (rmul q.x ty) (rmul q.y tx))⟩

/-- Number.EPSILON, the threshold used by THREE.Quaternion.setFromUnitVectors. -/
def epsNum : ℚ := mkRat 1 (2 ^ 52)

/-- THREE.Quaternion.setFromUnitVectors(vFrom, vTo). -/
def setFromUnitVectors (vFrom vTo : Vec3) : Quat :=
  let r := radd (vdot vFrom vTo) 1
  let q : Quat :=
    if r < epsNum then
      if |vFrom.x| > |vFrom.z| then ⟨-vFrom.y, vFrom.x, 0, 0⟩
      else ⟨0, -vFrom.z, vFrom.y, 0⟩
    else
      ⟨rsub (rmul vFrom.y vTo.z) (rmul vFrom.z vTo.y),
       rsub (rmul vFrom.z vTo.x) (rmul vFrom.x vTo.z),
       rsub (rmul vFrom.x vTo.y) (rmul vFrom.y vTo.x),
       r⟩
  qnormalize q

-- Algebraic facts about the quaternion model.

theorem qmul_assoc (a b c : Quat) : qmul (qmul a b) c = qmul a (qmul b c) := by
  simp only [qmul, radd_eq, rsub_eq, rmul_eq, Quat.mk.injEq]
  refine ⟨by ring, by ring, by ring, by ring⟩

theorem qmul_qid (a : Quat) : qmul a qid = a := by
  simp only [qmul, qid, radd_eq, rsub_eq, rmul_eq]
  cases a with
  | mk x y z w => simp

theorem qid_qmul (a : Quat) : qmul qid a = a := by
  simp only [qmul, qid, radd_eq, rsub_eq, rmul_eq]
  cases a with
  | mk x y z w => simp

theorem qnormSq_qmul (a b : Quat) : qnormSq (qmul a b) = qnormSq a * qnormSq b := by
  simp only [qmul, qnormSq, radd_eq, rsub_eq, rmul_eq]
  ring

theorem qnormSq_qconj (a : Quat) : qnormSq (qconj a) = qnormSq a := by
  simp only [qconj, qnormSq, radd_eq, rsub_eq, rmul_eq]
  ring

theorem qmul_qconj_self (a : Quat) : qmul a (qconj a) = ⟨0, 0, 0, qnormSq a⟩ := by
  simp only [qmul, qconj, qnormSq, radd_eq, rsub_eq, rmul_eq, Quat.mk.injEq]
  refine ⟨by ring, by ring, by ring, by ring⟩

theorem qconj_qmul_self (a : Quat) : qmul (qconj a) a = ⟨0, 0, 0, qnormSq a⟩ := by
  simp only [qmul, qconj, qnormSq, radd_eq, rsub_eq, rmul_eq, Quat.mk.injEq]
  refine ⟨by ring, by ring, by ring, by ring⟩

theorem scalar_qmul (c : ℚ) (a : Quat) :
    qmul ⟨0, 0, 0, c⟩ a = ⟨c * a.x, c * a.y, c * a.z, c * a.w⟩ := by
  simp only [qmul, radd_eq, rsub_eq, rmul_eq, Quat.mk.injEq]
  refine ⟨by ring, by ring, by ring, by ring⟩

theorem ratSqrt_one : ratSqrt 1 = 1 := by decide

theorem qnormalize_of_unit {q : Quat} (h : qnormSq q = 1) : qnormalize q = q := by
  cases q with
  | mk x y z w =>
    simp only [qnormalize, h, ratSqrt_one, rdiv_eq]
    norm_num

/-- For a unit quaternion p, p * (conj p * r) = r. -/
theorem unit_qmul_cancel {p : Quat} (h : qnormSq p = 1) (r : Quat) :
    qmul p (qmul (qconj p) r) = r := by
  rw [← qmul_assoc, qmul_qconj_self, h, scalar_qmul]
  cases r with
  | mk x y z w => simp

/-- For a unit quaternion p, (p * conj p) * r = r. -/
theorem unit_qmul_conj_qmul {p : Quat} (h : qnormSq p = 1) (r : Quat) :
    qmul (qmul p (qconj p)) r = r := by
  rw [qmul_qconj_self, h, scalar_qmul]
  cases r with
  | mk x y z w => simp

-- =========================================================================
-- JavaScript object / string modelling helpers
-- =========================================================================

/-- Assignment obj[k] = v on a plain JS object modelled as an ordered
association list: an existing key keeps its position, a new key is appended. -/
def objSet {α : Type} (l : List (String × α)) (k : String) (v : α) :
    List (String × α) :=
  match l with
  | [] => [(k, v)]
  | (k', v') :: rest =>
    if k' = k then (k, v) :: rest else (k', v') :: objSet rest k v

/-- Read obj[k] from an ordered association list (first match; objSet keeps
keys unique, matching JS object semantics). -/
def objGet {α : Type} (l : List (String × α)) (k : String) : Option α :=
  (l.find? (fun p => p.fst == k)).map Prod.snd

/-- Helper for splitLastDot: split a character list at its last dot. -/
def splitAtLastDotAux : List Char → Option (List Char × List Char)
  | [] => none
  | c :: cs =>
    match splitAtLastDotAux cs with
    | some (pre, post) => some (c :: pre, post)
    | none => if c = '.' then some ([], cs) else none

/-- Model of name.lastIndexOf and the two substring calls in the track-parsing
loop: the part before the last dot and the part after it, or none when the
name contains no dot (lastDot less than 0). -/
def splitLastDot (s : String) : Option (String × String) :=
  (splitAtLastDotAux s.data).map (fun p => (String.mk p.fst, String.mk p.snd))

-- =========================================================================
-- Clip / track data model
-- =========================================================================

/-- A keyframe track of the incoming BVH clip: name such as Hips.quaternion,
parallel times and flattened values arrays. -/
structure RawTrack where
  name : String
  times : List ℚ
  values : List ℚ
deriving DecidableEq, Repr

/-- The incoming THREE.AnimationClip. -/
structure Clip where
  name : String
  duration : ℚ
  tracks : List RawTrack
deriving DecidableEq, Repr

/-- An output keyframe track: QuaternionKeyframeTrack or VectorKeyframeTrack. -/
inductive OutTrack where
  | rot (name : String) (times : List ℚ) (values : List Quat)
  | pos (name : String) (times : List ℚ) (values : List Vec3)
deriving DecidableEq, Repr

/-- The produced THREE.AnimationClip. -/
structure OutClip where
  name : String
  duration : ℚ
  tracks : List OutTrack
deriving DecidableEq, Repr

/-- Read the quaternion stored at frame f of a flattened values array
(track.values[4f .. 4f+3]; the arrays are in-range in every well-formed clip). -/
def sampleTrack (vals : List ℚ) (f : ℕ) : Quat :=
  ⟨vals.getD (4 * f) 0, vals.getD (4 * f + 1) 0,
   vals.getD (4 * f + 2) 0, vals.getD (4 * f + 3) 0⟩

/-- Step of the track-parsing loop: classify one track by the property suffix
after the last dot of its name. -/
def parseStep (st : List (String × RawTrack) × List (String × RawTrack))
    (t : RawTrack) : List (String × RawTrack) × List (String × RawTrack) :=
  match splitLastDot t.name with
  | none => st
  | some (boneName, prop) =>
    let st1 := if prop = "quaternion" then (objSet st.fst boneName t, st.snd) else st
    if prop = "position" then (st1.fst, objSet st1.snd boneName t) else st1

/-- The loop over bvhClip.tracks building bvhQuatTracks and bvhPosTracks. -/
def parseBvhTracks (ts : List RawTrack) :
    List (String × RawTrack) × List (String × RawTrack) :=
  ts.foldl parseStep ([], [])

-- =========================================================================
-- BVH format detection (detectBVHFormat)
-- =========================================================================

/-- detectBVHFormat: ordered presence checks on the set of bone names. -/
def detectBVHFormat (names : List String) : String :=
  if names.contains "Pelvis" && names.contains "Left_hip" then "AIST"
  else if names.contains "Chest" && names.contains "UpperArm_L" then "BANDAI"
  else if names.contains "Hips" && names.contains "LeftArm" then
    (if names.contains "Spine2" then "MIXAMO" else "CMU")
  else if names.contains "hip" || names.contains "rshoulder" then "MOCAPNET"
  else "UNKNOWN"

-- =========================================================================
-- Mapping tables: BVH bone name to DEF bone name (none = skip)
-- =========================================================================

/-- BVH_TO_DEF_CMU mapping table. -/
def BVH_TO_DEF_CMU : List (String × Option String) :=
  [("Hips", some "DEF-spine"),
   ("Spine", some "DEF-spine.001"),
   ("Spine1", some "DEF-spine.003"),
   ("Neck", none),
   ("Neck1", some "DEF-spine.004"),
   ("Head", some "DEF-spine.006"),
   ("LeftShoulder", some "DEF-shoulder.L"),
   ("LeftArm", some "DEF-upper_arm.L"),
   ("LeftForeArm", some "DEF-forearm.L"),
   ("LeftHand", some "DEF-hand.L"),
   ("RightShoulder", some "DEF-shoulder.R"),
   ("RightArm", some "DEF-upper_arm.R"),
   ("RightForeArm", some "DEF-forearm.R"),
   ("RightHand", some "DEF-hand.R"),
   ("LeftUpLeg", some "DEF-thigh.L"),
   ("LeftLeg", some "DEF-shin.L"),
   ("LeftFoot", some "DEF-foot.L"),
   ("LeftToeBase", some "DEF-toe.L"),
   ("RightUpLeg", some "DEF-thigh.R"),
   ("RightLeg", some "DEF-shin.R"),
   ("RightFoot", some "DEF-foot.R"),
   ("RightToeBase", some "DEF-toe.R"),
   ("LHipJoint", none),
   ("RHipJoint", none),
   ("LowerBack", none),
   ("LeftFingerBase", none),
   ("RightFingerBase", none),
   ("LThumb", none),
   ("RThumb", none)]

/-- BVH_TO_DEF_MIXAMO mapping table. -/
def BVH_TO_DEF_MIXAMO : List (String × Option String) :=
  [("Hips", some "DEF-spine"),
   ("Spine", some "DEF-spine.001"),
   ("Spine1", some "DEF-spine.002"),
   ("Spine2", some "DEF-spine.003"),
   ("Neck", none),
   ("Neck1", some "DEF-spine.004"),
   ("Head", some "DEF-spine.006"),
   ("LeftShoulder", some "DEF-shoulder.L"),
   ("LeftArm", some "DEF-upper_arm.L"),
   ("LeftForeArm", some "DEF-forearm.L"),
   ("LeftHand", some "DEF-hand.L"),
   ("RightShoulder", some "DEF-shoulder.R"),
   ("RightArm", some "DEF-upper_arm.R"),
   ("RightForeArm", some "DEF-forearm.R"),
   ("RightHand", some "DEF-hand.R"),
   ("LeftUpLeg", some "DEF-thigh.L"),
   ("LeftLeg", some "DEF-shin.L"),
   ("LeftFoot", some "DEF-foot.L"),
   ("LeftToeBase", some "DEF-toe.L"),
   ("RightUpLeg", some "DEF-thigh.R"),
   ("RightLeg", some "DEF-shin.R"),
   ("RightFoot", some "DEF-foot.R"),
   ("RightToeBase", some "DEF-toe.R"),
   ("LeftHandThumb1", some "DEF-thumb.01.L"),
   ("LeftHandThumb2", some "DEF-thumb.02.L"),
   ("LeftHandThumb3", some "DEF-thumb.03.L"),
   ("LeftHandIndex1", some "DEF-f_index.01.L"),
   ("LeftHandIndex2", some "DEF-f_index.02.L"),
   ("LeftHandIndex3", some "DEF-f_index.03.L"),
   ("LeftHandMiddle1", some "DEF-f_middle.01.L"),
   ("LeftHandMiddle2", some "DEF-f_middle.02.L"),
   ("LeftHandMiddle3", some "DEF-f_middle.03.L"),
   ("LeftHandRing1", some "DEF-f_ring.01.L"),
   ("LeftHandRing2", some "DEF-f_ring.02.L"),
   ("LeftHandRing3", some "DEF-f_ring.03.L"),
   ("LeftHandPinky1", some "DEF-f_pinky.01.L"),
   ("LeftHandPinky2", some "DEF-f_pinky.02.L"),
   ("LeftHandPinky3", some "DEF-f_pinky.03.L"),
   ("RightHandThumb1", some "DEF-thumb.01.R"),
   ("RightHandThumb2", some "DEF-thumb.02.R"),
   ("RightHandThumb3", some "DEF-thumb.03.R"),
   ("RightHandIndex1", some "DEF-f_index.01.R"),
   ("RightHandIndex2", some "DEF-f_index.02.R"),
   ("RightHandIndex3", some "DEF-f_index.03.R"),
   ("RightHandMiddle1", some "DEF-f_middle.01.R"),
   ("RightHandMiddle2", some "DEF-f_middle.02.R"),
   ("RightHandMiddle3", some "DEF-f_middle.03.R"),
   ("RightHandRing1", some "DEF-f_ring.01.R"),
   ("RightHandRing2", some "DEF-f_ring.02.R"),
   ("RightHandRing3", some "DEF-f_ring.03.R"),
   ("RightHandPinky1", some "DEF-f_pinky.01.R"),
   ("RightHandPinky2", some "DEF-f_pinky.02.R"),
   ("RightHandPinky3", some "DEF-f_pinky.03.R")]

/-- BVH_TO_DEF_MOCAPNET mapping table. -/
def BVH_TO_DEF_MOCAPNET : List (String × Option String) :=
  [("hip", some "DEF-spine"),
   ("abdomen", some "DEF-spine.001"),
   ("chest", some "DEF-spine.003"),
   ("neck1", some "DEF-spine.004"),
   ("head", some "DEF-spine.006"),
   ("lcollar", some "DEF-shoulder.L"),
   ("rcollar", some "DEF-shoulder.R"),
   ("lshoulder", some "DEF-upper_arm.L"),
   ("rshoulder", some "DEF-upper_arm.R"),
   ("lelbow", some "DEF-forearm.L"),
   ("relbow", some "DEF-forearm.R"),
   ("lhand", some "DEF-hand.L"),
   ("rhand", some "DEF-hand.R"),
   ("lhip", some "DEF-thigh.L"),
   ("rhip", some "DEF-thigh.R"),
   ("lknee", some "DEF-shin.L"),
   ("rknee", some "DEF-shin.R"),
   ("lfoot", some "DEF-foot.L"),
   ("rfoot", some "DEF-foot.R"),
   ("toe1-1.l", some "DEF-toe.L"),
   ("toe1-1.r", some "DEF-toe.R"),
   ("lCollar", some "DEF-shoulder.L"),
   ("rCollar", some "DEF-shoulder.R"),
   ("lShldr", some "DEF-upper_arm.L"),
   ("rShldr", some "DEF-upper_arm.R"),
   ("lForeArm", some "DEF-forearm.L"),
   ("rForeArm", some "DEF-forearm.R"),
   ("lHand", some "DEF-hand.L"),
   ("rHand", some "DEF-hand.R"),
   ("lThigh", some "DEF-thigh.L"),
   ("rThigh", some "DEF-thigh.R"),
   ("lShin", some "DEF-shin.L"),
   ("rShin", some "DEF-shin.R"),
   ("lFoot", some "DEF-foot.L"),
   ("rFoot", some "DEF-foot.R"),
   ("lButtock", none),
   ("rButtock", none),
   ("toe1-1.L", some "DEF-toe.L"),
   ("toe1-1.R", some "DEF-toe.R"),
   ("lthumb", some "DEF-thumb.01.L"),
   ("finger1-2.l", some "DEF-thumb.02.L"),
   ("finger1-3.l", some "DEF-thumb.03.L"),
   ("finger2-1.l", some "DEF-f_index.01.L"),
   ("finger2-2.l", some "DEF-f_index.02.L"),
   ("finger2-3.l", some "DEF-f_index.03.L"),
   ("finger3-1.l", some "DEF-f_middle.01.L"),
   ("finger3-2.l", some "DEF-f_middle.02.L"),
   ("finger3-3.l", some "DEF-f_middle.03.L"),
   ("finger4-1.l", some "DEF-f_ring.01.L"),
   ("finger4-2.l", some "DEF-f_ring.02.L"),
   ("finger4-3.l", some "DEF-f_ring.03.L"),
   ("finger5-1.l", some "DEF-f_pinky.01.L"),
   ("finger5-2.l", some "DEF-f_pinky.02.L"),
   ("finger5-3.l", some "DEF-f_pinky.03.L"),
   ("rthumb", some "DEF-thumb.01.R"),
   ("finger1-2.r", some "DEF-thumb.02.R"),
   ("finger1-3.r", some "DEF-thumb.03.R"),
   ("finger2-1.r", some "DEF-f_index.01.R"),
   ("finger2-2.r", some "DEF-f_index.02.R"),
   ("finger2-3.r", some "DEF-f_index.03.R"),
   ("finger3-1.r", some "DEF-f_middle.01.R"),
   ("finger3-2.r", some "DEF-f_middle.02.R"),
   ("finger3-3.r", some "DEF-f_middle.03.R"),
   ("finger4-1.r", some "DEF-f_ring.01.R"),
   ("finger4-2.r", some "DEF-f_ring.02.R"),
   ("finger4-3.r", some "DEF-f_ring.03.R"),
   ("finger5-1.r", some "DEF-f_pinky.01.R"),
   ("finger5-2.r", some "DEF-f_pinky.02.R"),
   ("finger5-3.r", some "DEF-f_pinky.03.R"),
   ("metacarpal1.l", some "DEF-palm.01.L"),
   ("metacarpal2.l", some "DEF-palm.02.L"),
   ("metacarpal3.l", some "DEF-palm.03.L"),
   ("metacarpal4.l", some "DEF-palm.04.L"),
   ("metacarpal1.r", some "DEF-palm.01.R"),
   ("metacarpal2.r", some "DEF-palm.02.R"),
   ("metacarpal3.r", some "DEF-palm.03.R"),
   ("metacarpal4.r", some "DEF-palm.04.R"),
   ("jaw", some "DEF-jaw"),
   ("tongue01", some "DEF-tongue"),
   ("tongue02", some "DEF-tongue.001"),
   ("tongue03", some "DEF-tongue.002"),
   ("eye.l", some "MCH-eye.L"),
   ("eye.r", some "MCH-eye.R"),
   ("oris04.l", some "DEF-lip.T.L"),
   ("oris04.r", some "DEF-lip.T.R"),
   ("oris03.l", some "DEF-lip.T.L.001"),
   ("oris03.r", some "DEF-lip.T.R.001"),
   ("oris06.l", some "DEF-lip.B.L"),
   ("oris06.r", some "DEF-lip.B.R"),
   ("oris07.l", some "DEF-lip.B.L.001"),
   ("oris07.r", some "DEF-lip.B.R.001"),
   ("orbicularis03.l", some "DEF-lid.T.L"),
   ("orbicularis03.r", some "DEF-lid.T.R"),
   ("orbicularis04.l", some "DEF-lid.B.L"),
   ("orbicularis04.r", some "DEF-lid.B.R")]

/-- BVH_TO_DEF_AIST mapping table. -/
def BVH_TO_DEF_AIST : List (String × Option String) :=
  [("Pelvis", some "DEF-spine"),
   ("Spine1", some "DEF-spine.001"),
   ("Spine2", some "DEF-spine.002"),
   ("Spine3", some "DEF-spine.003"),
   ("Neck", some "DEF-spine.004"),
   ("Head", some "DEF-spine.006"),
   ("Left_collar", some "DEF-shoulder.L"),
   ("Left_shoulder", some "DEF-upper_arm.L"),
   ("Left_elbow", some "DEF-forearm.L"),
   ("Left_wrist", some "DEF-hand.L"),
   ("Left_palm", none),
   ("Right_collar", some "DEF-shoulder.R"),
   ("Right_shoulder", some "DEF-upper_arm.R"),
   ("Right_elbow", some "DEF-forearm.R"),
   ("Right_wrist", some "DEF-hand.R"),
   ("Right_palm", none),
   ("Left_hip", some "DEF-thigh.L"),
   ("Left_knee", some "DEF-shin.L"),
   ("Left_ankle", some "DEF-foot.L"),
   ("Left_foot", some "DEF-toe.L"),
   ("Right_hip", some "DEF-thigh.R"),
   ("Right_knee", some "DEF-shin.R"),
   ("Right_ankle", some "DEF-foot.R"),
   ("Right_foot", some "DEF-toe.R")]

/-- BVH_TO_DEF_BANDAI mapping table. -/
def BVH_TO_DEF_BANDAI : List (String × Option String) :=
  [("Hips", some "DEF-spine"),
   ("Spine", some "DEF-spine.001"),
   ("Chest", some "DEF-spine.003"),
   ("Neck", some "DEF-spine.004"),
   ("Head", some "DEF-spine.006"),
   ("Shoulder_L", some "DEF-shoulder.L"),
   ("UpperArm_L", some "DEF-upper_arm.L"),
   ("LowerArm_L", some "DEF-forearm.L"),
   ("Hand_L", some "DEF-hand.L"),
   ("Shoulder_R", some "DEF-shoulder.R"),
   ("UpperArm_R", some "DEF-upper_arm.R"),
   ("LowerArm_R", some "DEF-forearm.R"),
   ("Hand_R", some "DEF-hand.R"),
   ("UpperLeg_L", some "DEF-thigh.L"),
   ("LowerLeg_L", some "DEF-shin.L"),
   ("Foot_L", some "DEF-foot.L"),
   ("Toes_L", some "DEF-toe.L"),
   ("UpperLeg_R", some "DEF-thigh.R"),
   ("LowerLeg_R", some "DEF-shin.R"),
   ("Foot_R", some "DEF-foot.R"),
   ("Toes_R", some "DEF-toe.R"),
   ("joint_Root", none)]

/-- Mapping-table selection at the top of retargetBVHToDefClip: every format
tag other than CMU, MIXAMO, BANDAI and AIST (including UNKNOWN) falls back to
the MOCAPNET table. -/
def mappingFor (format : String) : List (String × Option String) :=
  if format = "CMU" then BVH_TO_DEF_CMU
  else if format = "MIXAMO" then BVH_TO_DEF_MIXAMO
  else if format = "BANDAI" then BVH_TO_DEF_BANDAI
  else if format = "AIST" then BVH_TO_DEF_AIST
  else BVH_TO_DEF_MOCAPNET

-- =========================================================================
-- Skeleton data model
-- =========================================================================

/-- One bone of the DEF (target) skeleton as exposed by defSkel.boneByName:
key (= bone.name), parent bone key (none when the parent object lies outside
boneByName, in which case its world transform is the identity), local rest
rotation and local rest translation. -/
structure DefBone where
  name : String
  parent : Option String
  localQ : Quat
  pos : Vec3
deriving DecidableEq, Repr

/-- The target skeleton: the entries of defSkel.boneByName in key-insertion
order. -/
structure DefSkel where
  bones : List DefBone
deriving DecidableEq, Repr

/-- Lookup defSkel.boneByName[n]. -/
def defFind (s : DefSkel) (n : String) : Option DefBone :=
  s.bones.find? (fun b => b.name == n)

/-- Fuel-bounded walk of the parent chain computing bone.getWorldQuaternion:
the composition of the local rest rotations from the root down to the bone.
The fuel (list length) covers every acyclic chain. -/
def defWorldRestQAux (s : DefSkel) : ℕ → String → Quat
  | 0, n =>
    match defFind s n with
    | some b => b.localQ
    | none => qid
  | fuel + 1, n =>
    match defFind s n with
    | none => qid
    | some b =>
      match b.parent with
      | none => b.localQ
      | some p => qmul (defWorldRestQAux s fuel p) b.localQ

/-- defWorldRestQ[n]: the bone's world rest rotation. -/
def defWorldRestQ (s : DefSkel) (n : String) : Quat :=
  defWorldRestQAux s s.bones.length n

/-- defRestLocalQ[n]: parent world rest rotation inverted times own world rest
rotation (or the world rest rotation itself for a parentless bone); a missing
entry decays to the identity quaternion as in the JS fallbacks. -/
def defRestLocalQ (s : DefSkel) (n : String) : Quat :=
  match defFind s n with
  | none => qid
  | some b =>
    match b.parent with
    | none => defWorldRestQ s n
    | some p => qmul (qconj (defWorldRestQ s p)) (defWorldRestQ s n)

/-- Depth of a bone used by the allDefBonesSorted comparator: the number of
ancestors, walked with fuel like the JS while loop (which always terminates on
the acyclic THREE scene graph). -/
def defDepthAux (s : DefSkel) : ℕ → String → ℕ
  | 0, _ => 0
  | fuel + 1, n =>
    match defFind s n with
    | none => 0
    | some b =>
      match b.parent with
      | none => 0
      | some p => defDepthAux s fuel p + 1

def defDepth (s : DefSkel) (n : String) : ℕ :=
  defDepthAux s s.bones.length n

/-- Stable insertion used to model the (ES2019, stable) Array.prototype.sort
with comparator depth a - depth b: an element is placed after every element of
less or equal depth. -/
def sortInsert (key : String → ℕ) (x : String) : List String → List String
  | [] => [x]
  | y :: ys => if key x < key y then x :: y :: ys else y :: sortInsert key x ys

def sortByDepth (key : String → ℕ) : List String → List String
  | [] => []
  | x :: xs => sortInsert key x (sortByDepth key xs)

/-- The source skeleton as a bone tree: bvhBones[0] with name, rest offset
(bone.position), current quaternion (bone.quaternion as loaded) and children;
the bones array is its preorder flattening. -/
inductive BvhTree where
  | node (name : String) (pos : Vec3) (quat : Quat) (children : List BvhTree)
deriving Repr

def BvhTree.name : BvhTree → String
  | .node n _ _ _ => n

def BvhTree.pos : BvhTree → Vec3
  | .node _ p _ _ => p

def BvhTree.quat : BvhTree → Quat
  | .node _ _ q _ => q

def BvhTree.children : BvhTree → List BvhTree
  | .node _ _ _ cs => cs

mutual
/-- collectBvhHierarchy: preorder list of (bone name, parent bone name). -/
def bvhHier : Option String → BvhTree → List (String × Option String)
  | pn, .node n _ _ cs => (n, pn) :: bvhHierList n cs

def bvhHierList : String → List BvhTree → List (String × Option String)
  | _, [] => []
  | pn, c :: cs => bvhHier (some pn) c ++ bvhHierList pn cs
end

mutual
/-- Preorder flattening of the bone tree (the skeleton.bones array). -/
def bvhFlatten : BvhTree → List BvhTree
  | .node n p q cs => .node n p q cs :: bvhFlattenList cs

def bvhFlattenList : List BvhTree → List BvhTree
  | [] => []
  | c :: cs => bvhFlatten c ++ bvhFlattenList cs
end

/-- bvhBoneByName[n]: built by iterating the bones array with assignment, so a
later bone of the same name overwrites an earlier one. -/
def bvhBoneByName (t : BvhTree) (n : String) : Option BvhTree :=
  (bvhFlatten t).foldl (fun acc b => if b.name = n then some b else acc) none

mutual
/-- accBvhWorldPos: world position of every bone obtained by accumulating
position offsets rotated through the parent chain of quaternions. -/
def bvhWorldPoints : Quat → Vec3 → BvhTree → List Vec3
  | pwq, pwp, .node _ p q cs =>
    let wp := vadd pwp (applyQuaternion pwq p)
    wp :: bvhWorldPointsList (qmul pwq q) wp cs

def bvhWorldPointsList : Quat → Vec3 → List BvhTree → List Vec3
  | _, _, [] => []
  | pwq, pwp, c :: cs => bvhWorldPoints pwq pwp c ++ bvhWorldPointsList pwq pwp cs
end

/-- Vertical extent of the skeleton bounding box, clamped from below to 0.01
(Math.max(skelBox.max.y - skelBox.min.y, 0.01)). -/
def bvhHeightOf (t : BvhTree) : ℚ :=
  let pts := bvhWorldPoints qid vzero t
  let ys := pts.map Vec3.y
  let maxY := ys.foldl max ((pts.headD vzero).y)
  let minY := ys.foldl min ((pts.headD vzero).y)
  max (rsub maxY minY) (mkRat 1 100)

-- =========================================================================
-- retargetBVHToDefClip: inputs and derived context
-- =========================================================================

/-- The inputs of retargetBVHToDefClip: bvhResult (tree plus clip), defSkel,
the format tag, opts.skipDefBones and the measured height of opts.bodyMesh.
The body-mesh measurement (a THREE.Box3 over an external mesh) is outside the
module; it is modelled as the optional measured height: none when no mesh is
supplied or its box is empty, in which case the default 1.68 is used. -/
structure RetIn where
  tree : BvhTree
  clip : Clip
  defSkel : DefSkel
  format : String
  skipDefBones : List String
  bodyMeshHeight : Option ℚ

/-- The mapping table chosen for this call. -/
def mappingOf (ri : RetIn) : List (String × Option String) :=
  mappingFor ri.format

/-- One step of the defToBvhName loop: for a table entry with a non-null DEF
name whose BVH bone and DEF bone both exist and which is not in
opts.skipDefBones, record defToBvhName[defName] = bvhName. -/
def defToBvhStep (ri : RetIn) (acc : List (String × String))
    (e : String × Option String) : List (String × String) :=
  match e.snd with
  | none => acc
  | some defName =>
    if (bvhBoneByName ri.tree e.fst).isSome
        && (defFind ri.defSkel defName).isSome
        && !(ri.skipDefBones.contains defName) then
      objSet acc defName e.fst
    else acc

/-- defToBvhName: the loop over the mapping table (later entries overwrite
earlier ones). -/
def defToBvhName (ri : RetIn) : List (String × String) :=
  (mappingOf ri).foldl (defToBvhStep ri) []

/-- mappedDefNames: the keys of defToBvhName. -/
def mappedDefNames (ri : RetIn) : List String :=
  (defToBvhName ri).map Prod.fst

/-- bvhQuatTracks, as an ordered association list. -/
def quatTracksOf (ri : RetIn) : List (String × RawTrack) :=
  (parseBvhTracks ri.clip.tracks).fst

/-- bvhPosTracks, as an ordered association list. -/
def posTracksOf (ri : RetIn) : List (String × RawTrack) :=
  (parseBvhTracks ri.clip.tracks).snd

/-- fc: the frame count of the first quaternion track, 0 when there is none. -/
def fcOf (ri : RetIn) : ℕ :=
  match quatTracksOf ri with
  | [] => 0
  | (_, tr) :: _ => tr.times.length

/-- times of the first quaternion track. -/
def timesOf (ri : RetIn) : List ℚ :=
  match quatTracksOf ri with
  | [] => []
  | (_, tr) :: _ => tr.times

/-- Local quaternion of BVH bone n at frame f: its track sample, or the
identity for a bone with no quaternion track. -/
def sampleAt (ri : RetIn) (f : ℕ) (n : String) : Quat :=
  match objGet (quatTracksOf ri) n with
  | some tr => sampleTrack tr.values f
  | none => qid

/-- The preorder (name, parent name) list produced by collectBvhHierarchy. -/
def bvhEntries (ri : RetIn) : List (String × Option String) :=
  bvhHier none ri.tree

/-- bvhBoneParentName[n] (assignments during the hierarchy walk; the root gets
no entry, modelled as none). -/
def bvhBoneParentName (ri : RetIn) (n : String) : Option String :=
  (bvhEntries ri).foldl (fun acc e => if e.fst = n then e.snd else acc) none

/-- One step of the world-rotation accumulation shared by the frame-0 loop
(bvhRestWorldQ) and the per-frame Step 1 loop (bvhWorldAnimQ): world =
parent world times own local sample, or the local sample alone when the
parent has no accumulated value. -/
def accumVal (sample : String → Quat) (m : String → Option Quat)
    (e : String × Option String) : Quat :=
  match e.snd with
  | some p =>
    match m p with
    | some pw => qmul pw (sample e.fst)
    | none => sample e.fst
  | none => sample e.fst

def accumStep (sample : String → Quat) (m : String → Option Quat)
    (e : String × Option String) : String → Option Quat :=
  fun n => if n = e.fst then some (accumVal sample m e) else m n

def accumFrom (m0 : String → Option Quat) (entries : List (String × Option String))
    (sample : String → Quat) : String → Option Quat :=
  entries.foldl (accumStep sample) m0

/-- useDeltaRetarget: only the BANDAI format uses delta retargeting. -/
def useDelta (ri : RetIn) : Bool :=
  ri.format == "BANDAI"

/-- bvhRestWorldQ: frame-0 accumulated world rotations, computed only for
delta formats (an empty object otherwise). -/
def bvhRestWorldQ (ri : RetIn) : String → Option Quat :=
  if useDelta ri then accumFrom (fun _ => none) (bvhEntries ri) (sampleAt ri 0)
  else fun _ => none

/-- bodyH: measured body-mesh height, defaulting to 1.68. -/
def bodyHOf (ri : RetIn) : ℚ :=
  match ri.bodyMeshHeight with
  | some h => h
  | none => mkRat 168 100

/-- heightScale = bodyH / bvhHeight. -/
def heightScaleOf (ri : RetIn) : ℚ :=
  rdiv (bodyHOf ri) (bvhHeightOf ri.tree)

/-- rootDefName: the first non-null mapping target that exists in the DEF
skeleton, in table order. -/
def rootDefName (ri : RetIn) : Option String :=
  ((mappingOf ri).filterMap Prod.snd).find? (fun d => (defFind ri.defSkel d).isSome)

/-- skipDirCorrectionBones: the per-format direction-correction exception
list. -/
def skipDirCorrectionBones (format : String) : List String :=
  if format = "AIST" then
    ["DEF-foot.L", "DEF-foot.R", "DEF-toe.L", "DEF-toe.R",
     "DEF-spine.004", "DEF-spine.006"]
  else if format = "MOCAPNET" then
    ["DEF-foot.L", "DEF-foot.R", "DEF-toe.L", "DEF-toe.R",
     "DEF-jaw", "DEF-spine.004", "DEF-spine.006"]
  else []

def negZ : Vec3 := ⟨0, 0, -1⟩

/-- The best-aligned-child search of the offset solver: among the children
with offset length squared above 1e-10, the direction (computed by dirOf)
with the strictly largest dot product against the DEF rest direction. -/
def pickChildDir (defRestDir : Vec3) (dirOf : BvhTree → Vec3)
    (children : List BvhTree) : Option Vec3 :=
  (children.foldl
    (fun best c =>
      if vLengthSq c.pos > mkRat 1 (10 ^ 10) then
        let dir := dirOf c
        let dot := vdot dir defRestDir
        match best with
        | none => some (dot, dir)
        | some bd => if dot > bd.fst then some (dot, dir) else best
      else best)
    none).map Prod.snd

/-- The offset quaternion computed for one defToBvhName entry: the raw DEF
world rest rotation for the mapping root and the per-format exception list,
otherwise the direction correction (best-aligned child, with fallback to the
bone's own offset) composed with the DEF world rest rotation. -/
def offsetForEntry (ri : RetIn) (defName bvhName : String) : Quat :=
  if some defName = rootDefName ri
      ∨ (skipDirCorrectionBones ri.format).contains defName then
    defWorldRestQ ri.defSkel defName
  else
    let defRestDir := vnormalize (applyQuaternion (defWorldRestQ ri.defSkel defName) negZ)
    match bvhBoneByName ri.tree bvhName with
    | none => defWorldRestQ ri.defSkel defName
    | some bvhBone =>
      let dirOf : BvhTree → Vec3 := fun c =>
        match (if useDelta ri then bvhRestWorldQ ri bvhName else none) with
        | some rwq => vnormalize (applyQuaternion rwq c.pos)
        | none => vnormalize c.pos
      let bvhDir : Option Vec3 :=
        match pickChildDir defRestDir dirOf bvhBone.children with
        | some d => some d
        | none =>
          if vLengthSq bvhBone.pos > mkRat 1 (10 ^ 10) then
            if useDelta ri then
              match bvhBoneParentName ri bvhName with
              | some p =>
                match bvhRestWorldQ ri p with
                | some pw => some (vnormalize (applyQuaternion pw bvhBone.pos))
                | none => some (vnormalize bvhBone.pos)
              | none => some (vnormalize bvhBone.pos)
            else some (vnormalize bvhBone.pos)
          else none
      match bvhDir with
      | none => defWorldRestQ ri.defSkel defName
      | some d =>
        if vLengthSq d < mkRat 1 (10 ^ 10) then defWorldRestQ ri.defSkel defName
        else qmul (setFromUnitVectors defRestDir d) (defWorldRestQ ri.defSkel defName)

/-- One step of the offset loop: store the entry's offset under its DEF
name. -/
def offsetStep (ri : RetIn) (m : String → Option Quat) (e : String × String) :
    String → Option Quat :=
  fun n => if n = e.fst then some (offsetForEntry ri e.fst e.snd) else m n

/-- offsetQ: one offset quaternion per defToBvhName entry. -/
def offsetQmap (ri : RetIn) : String → Option Quat :=
  (defToBvhName ri).foldl (offsetStep ri) (fun _ => none)

/-- allDefBonesSorted: every DEF bone key, stably sorted by hierarchy depth. -/
def allDefBonesSorted (ri : RetIn) : List String :=
  sortByDepth (defDepth ri.defSkel) (ri.defSkel.bones.map DefBone.name)

-- =========================================================================
-- Per-frame core loop (Hierarchy Propagator)
-- =========================================================================

/-- The mutable per-call buffers: outputQuats (zero-initialised Float32Arrays,
indexed here by DEF name and frame), defAnimWorldQ and bvhWorldAnimQ. -/
structure FrameState where
  out : String → ℕ → Quat
  world : String → Option Quat
  bvhW : String → Option Quat

def initState : FrameState :=
  ⟨fun _ _ => qzero, fun _ => none, fun _ => none⟩

/-- The parent target world rotation read when processing a DEF bone: the
accumulated defAnimWorldQ of its parent, or a fresh identity quaternion when
the bone has no parent entry or the parent has no accumulated value yet. -/
def parentWorldAt (ri : RetIn) (world : String → Option Quat)
    (defName : String) : Quat :=
  match (defFind ri.defSkel defName).bind DefBone.parent with
  | some p => (world p).getD qid
  | none => qid

/-- The local quaternion computed for a mapped DEF bone: dispatch on
delta/standard mode; when the mapped BVH bone has no accumulated world
rotation, fall back to the rest local rotation. -/
def localQAt (ri : RetIn) (bvhW world : String → Option Quat)
    (defName : String) : Quat :=
  let parentAnimWQ := parentWorldAt ri world defName
  match objGet (defToBvhName ri) defName with
  | none => defRestLocalQ ri.defSkel defName
  | some bvhName =>
    if useDelta ri then
      match bvhW bvhName, bvhRestWorldQ ri bvhName with
      | some bvhWAQ, some bvhRWQ =>
        let desired := qnormalize (qmul (qmul bvhWAQ (qconj bvhRWQ))
          ((offsetQmap ri defName).getD qid))
        qnormalize (qmul (qconj parentAnimWQ) desired)
      | some _, none => defRestLocalQ ri.defSkel defName
      | none, _ => defRestLocalQ ri.defSkel defName
    else
      match bvhW bvhName with
      | some bvhWAQ =>
        let desired := qnormalize (qmul bvhWAQ ((offsetQmap ri defName).getD qid))
        qnormalize (qmul (qconj parentAnimWQ) desired)
      | none => defRestLocalQ ri.defSkel defName

/-- Step 2 body for a single DEF bone at frame f: write the local quaternion
of a mapped bone into the output buffer and record the bone's animated world
rotation; an unmapped bone propagates its rest local rotation. -/
def defStep (ri : RetIn) (f : ℕ) (st : FrameState) (defName : String) :
    FrameState :=
  if (mappedDefNames ri).contains defName then
    { out := fun n f' =>
        if n = defName ∧ f' = f then localQAt ri st.bvhW st.world defName
        else st.out n f'
      world := fun n =>
        if n = defName then
          some (qmul (parentWorldAt ri st.world defName)
            (localQAt ri st.bvhW st.world defName))
        else st.world n
      bvhW := st.bvhW }
  else
    { out := st.out
      world := fun n =>
        if n = defName then
          some (qmul (parentWorldAt ri st.world defName)
            (defRestLocalQ ri.defSkel defName))
        else st.world n
      bvhW := st.bvhW }

/-- Step 1 of a frame: accumulate the BVH world rotations at frame f on top
of the buffer (every traversal entry is overwritten before it is read). -/
def stepBvh (ri : RetIn) (st : FrameState) (f : ℕ) : FrameState :=
  { st with bvhW := accumFrom st.bvhW (bvhEntries ri) (sampleAt ri f) }

/-- One frame of the per-frame retarget loop: Step 1 accumulates the BVH
world rotations at frame f, Step 2 folds over the depth-sorted DEF bones. -/
def frameStep (ri : RetIn) (st : FrameState) (f : ℕ) : FrameState :=
  (allDefBonesSorted ri).foldl (defStep ri f) (stepBvh ri st f)

/-- The final buffer state after the whole per-frame loop. -/
def retOut (ri : RetIn) : FrameState :=
  (List.range (fcOf ri)).foldl (frameStep ri) initState

-- =========================================================================
-- Clip assembly
-- =========================================================================

/-- The output rotation tracks, one per mapped DEF bone, named from the bone
(bone.name is the boneByName key). -/
def rotTracksOf (ri : RetIn) : List OutTrack :=
  (mappedDefNames ri).map (fun n =>
    OutTrack.rot (n ++ ".quaternion") (timesOf ri)
      ((List.range (fcOf ri)).map (fun f => (retOut ri).out n f)))

/-- Truthy lookup mapping[n]: a present, non-null target name. -/
def mappingLookup (m : List (String × Option String)) (n : String) :
    Option String :=
  match objGet m n with
  | some (some d) => some d
  | some none => none
  | none => none

/-- The DEF bone receiving the root position track: the target of the BVH
root when its mapping is truthy, otherwise (when a position track exists) the
target of the first child of the BVH root whose mapping is truthy. -/
def rootPosDefOf (ri : RetIn) : Option String :=
  match mappingLookup (mappingOf ri) ri.tree.name with
  | some d => some d
  | none =>
    if (objGet (posTracksOf ri) ri.tree.name).isSome then
      (ri.tree.children.find?
        (fun c => (mappingLookup (mappingOf ri) c.name).isSome)).bind
        (fun c => mappingLookup (mappingOf ri) c.name)
    else none

/-- The per-frame loop of the root position track: rest position of the DEF
bone plus (source sample minus frame-0 source sample) times heightScale,
applied per axis. -/
def scaledRootValues (defRestPos bvhRef : Vec3) (heightScale : ℚ)
    (vals : List ℚ) : List Vec3 :=
  (List.range (vals.length / 3)).map (fun i =>
    ⟨radd defRestPos.x (rmul (rsub (vals.getD (3 * i) 0) bvhRef.x) heightScale),
     radd defRestPos.y (rmul (rsub (vals.getD (3 * i + 1) 0) bvhRef.y) heightScale),
     radd defRestPos.z (rmul (rsub (vals.getD (3 * i + 2) 0) bvhRef.z) heightScale)⟩)

/-- The root position output track, when one is produced. -/
def rootPosTrackOf (ri : RetIn) : Option OutTrack :=
  match rootPosDefOf ri, objGet (posTracksOf ri) ri.tree.name with
  | some d, some tr =>
    match defFind ri.defSkel d with
    | some defBone =>
      let bvhRef : Vec3 :=
        ⟨tr.values.getD 0 0, tr.values.getD 1 0, tr.values.getD 2 0⟩
      some (OutTrack.pos (defBone.name ++ ".position") tr.times
        (scaledRootValues defBone.pos bvhRef (heightScaleOf ri) tr.values))
    | none => none
  | _, _ => none

/-- retargetBVHToDefClip: the whole retarget call. With no quaternion track
at all it returns the empty clip of duration 0; otherwise the rotation tracks
of the mapped bones plus the optional root position track, with the duration
copied from the source clip. -/
def retargetBVHToDefClip (ri : RetIn) : OutClip :=
  match quatTracksOf ri with
  | [] => ⟨"retargeted", 0, []⟩
  | _ :: _ => ⟨"retargeted", ri.clip.duration,
      rotTracksOf ri ++ (rootPosTrackOf ri).toList⟩

-- =========================================================================
-- Supporting lemmas: buffer stability across the folds
-- =========================================================================

/-- A key retrieved by objGet is among the keys. -/
theorem objGet_some_mem_keys {α : Type} {l : List (String × α)} {k : String}
    {v : α} (h : objGet l k = some v) : k ∈ l.map Prod.fst := by
  unfold objGet at h
  cases hf : l.find? (fun p => p.fst == k) with
  | none => simp [hf] at h
  | some p =>
    have hmem := List.mem_of_find?_eq_some hf
    have hpred := List.find?_some hf
    have : p.fst = k := by simpa using hpred
    subst this
    exact List.mem_map_of_mem Prod.fst hmem

/-- A value retrieved by objGet belongs to the list. -/
theorem objGet_some_mem {α : Type} {l : List (String × α)} {k : String}
    {v : α} (h : objGet l k = some v) : (k, v) ∈ l := by
  unfold objGet at h
  cases hf : l.find? (fun p => p.fst == k) with
  | none => simp [hf] at h
  | some p =>
    have hmem := List.mem_of_find?_eq_some hf
    have hpred := List.find?_some hf
    have h1 : p.fst = k := by simpa using hpred
    have h2 : p.snd = v := by simp [hf] at h; exact h
    have : p = (k, v) := by
      cases p
      simp_all
    simpa [this] using hmem

theorem defStep_bvhW (ri : RetIn) (f : ℕ) (st : FrameState) (n : String) :
    (defStep ri f st n).bvhW = st.bvhW := by
  unfold defStep
  split <;> rfl

theorem defStep_out_ne (ri : RetIn) (f : ℕ) (st : FrameState) (n m : String)
    (f' : ℕ) (h : ¬(m = n ∧ f' = f)) :
    (defStep ri f st n).out m f' = st.out m f' := by
  unfold defStep
  split
  · simp [h]
  · rfl

theorem defStep_world_ne (ri : RetIn) (f : ℕ) (st : FrameState) (n m : String)
    (h : m ≠ n) : (defStep ri f st n).world m = st.world m := by
  unfold defStep
  split <;> simp [h]

theorem foldl_defStep_bvhW (ri : RetIn) (f : ℕ) (l : List String)
    (st : FrameState) :
    (l.foldl (defStep ri f) st).bvhW = st.bvhW := by
  induction l generalizing st with
  | nil => rfl
  | cons a l ih => simp only [List.foldl_cons]; rw [ih, defStep_bvhW]

theorem foldl_defStep_out_fne (ri : RetIn) (f : ℕ) (l : List String)
    (st : FrameState) (n : String) (f' : ℕ) (h : f' ≠ f) :
    (l.foldl (defStep ri f) st).out n f' = st.out n f' := by
  induction l generalizing st with
  | nil => rfl
  | cons a l ih =>
    simp only [List.foldl_cons]
    rw [ih, defStep_out_ne]
    intro hc
    exact h hc.right

theorem foldl_defStep_out_notmem (ri : RetIn) (f : ℕ) (l : List String)
    (st : FrameState) (n : String) (f' : ℕ) (h : n ∉ l) :
    (l.foldl (defStep ri f) st).out n f' = st.out n f' := by
  induction l generalizing st with
  | nil => rfl
  | cons a l ih =>
    simp only [List.foldl_cons]
    rw [ih _ (fun hc => h (List.mem_cons_of_mem a hc)), defStep_out_ne]
    intro hc
    exact h (hc.left ▸ List.mem_cons_self a l)

theorem foldl_defStep_world_notmem (ri : RetIn) (f : ℕ) (l : List String)
    (st : FrameState) (n : String) (h : n ∉ l) :
    (l.foldl (defStep ri f) st).world n = st.world n := by
  induction l generalizing st with
  | nil => rfl
  | cons a l ih =>
    simp only [List.foldl_cons]
    rw [ih _ (fun hc => h (List.mem_cons_of_mem a hc)), defStep_world_ne]
    intro hc
    exact h (hc ▸ List.mem_cons_self a l)

theorem frameStep_out_fne (ri : RetIn) (st : FrameState) (f f' : ℕ)
    (n : String) (h : f' ≠ f) :
    (frameStep ri st f).out n f' = st.out n f' := by
  unfold frameStep
  rw [foldl_defStep_out_fne _ _ _ _ _ _ h]
  rfl

/-- The buffer state just before frame f is processed. -/
def stBefore (ri : RetIn) (f : ℕ) : FrameState :=
  (List.range f).foldl (frameStep ri) initState

/-- The buffer state during frame f, after Step 1 and after the Step 2 fold
has consumed the prefix l1 of the depth-sorted bone list. -/
def stMid (ri : RetIn) (f : ℕ) (l1 : List String) : FrameState :=
  l1.foldl (defStep ri f) (stepBvh ri (stBefore ri f) f)

theorem foldl_range_out_stable (ri : RetIn) (n : String) (f : ℕ) :
    ∀ k, f < k →
      (((List.range k).foldl (frameStep ri) initState).out n f)
        = (((List.range (f + 1)).foldl (frameStep ri) initState).out n f) := by
  intro k
  induction k with
  | zero => intro h; exact absurd h (Nat.not_lt_zero f)
  | succ k ih =>
    intro h
    rcases Nat.lt_or_ge f k with hk | hk
    · rw [List.range_succ, List.foldl_append, List.foldl_cons, List.foldl_nil,
        frameStep_out_fne _ _ _ _ _ (Nat.ne_of_lt hk), ih hk]
    · have : f = k := Nat.le_antisymm (Nat.le_of_lt_succ h) hk
      subst this
      rfl

/-- The output slot of frame f is decided during frame f. -/
theorem retOut_out_eq (ri : RetIn) (n : String) (f : ℕ) (hf : f < fcOf ri) :
    (retOut ri).out n f = (frameStep ri (stBefore ri f) f).out n f := by
  unfold retOut
  rw [foldl_range_out_stable ri n f (fcOf ri) hf, List.range_succ,
    List.foldl_append, List.foldl_cons, List.foldl_nil]
  rfl

/-- Splitting the Step 2 fold at a bone that does not occur again later. -/
theorem frameStep_out_split (ri : RetIn) (f : ℕ) (st : FrameState)
    (n : String) (l1 l2 : List String)
    (hsplit : allDefBonesSorted ri = l1 ++ n :: l2) (hnotin : n ∉ l2) :
    (frameStep ri st f).out n f
      = (defStep ri f (l1.foldl (defStep ri f) (stepBvh ri st f)) n).out n f := by
  unfold frameStep
  rw [hsplit, List.foldl_append, List.foldl_cons]
  exact foldl_defStep_out_notmem _ _ _ _ _ _ hnotin

theorem frameStep_world_split (ri : RetIn) (f : ℕ) (st : FrameState)
    (n : String) (l1 l2 : List String)
    (hsplit : allDefBonesSorted ri = l1 ++ n :: l2) (hnotin : n ∉ l2) :
    (frameStep ri st f).world n
      = (defStep ri f (l1.foldl (defStep ri f) (stepBvh ri st f)) n).world n := by
  unfold frameStep
  rw [hsplit, List.foldl_append, List.foldl_cons]
  exact foldl_defStep_world_notmem _ _ _ _ _ hnotin

/-- The out slot written by a mapped bone's own step. -/
theorem defStep_out_self (ri : RetIn) (f : ℕ) (st : FrameState) (n : String)
    (hmap : (mappedDefNames ri).contains n = true) :
    (defStep ri f st n).out n f = localQAt ri st.bvhW st.world n := by
  unfold defStep
  rw [if_pos hmap]
  simp

/-- The world entry recorded by a mapped bone's own step. -/
theorem defStep_world_self (ri : RetIn) (f : ℕ) (st : FrameState) (n : String)
    (hmap : (mappedDefNames ri).contains n = true) :
    (defStep ri f st n).world n
      = some (qmul (parentWorldAt ri st.world n) (localQAt ri st.bvhW st.world n)) := by
  unfold defStep
  rw [if_pos hmap]
  simp

-- =========================================================================
-- Unit-norm machinery
-- =========================================================================

/-- All quaternions stored in a buffer map are unit quaternions. -/
def MapUnit (m : String → Option Quat) : Prop :=
  ∀ n q, m n = some q → qnormSq q = 1

/-- The exact-arithmetic well-formedness of one retarget call: unit local
rest rotations on the target skeleton, unit track samples at every frame in
range (and at frame 0, which the delta path reads even before the frame
loop), and unit offset quaternions. -/
def UnitCtx (ri : RetIn) : Prop :=
  (∀ b ∈ ri.defSkel.bones, qnormSq b.localQ = 1) ∧
  (∀ p ∈ quatTracksOf ri, ∀ f < max 1 (fcOf ri),
    qnormSq (sampleTrack (Prod.snd p).values f) = 1) ∧
  (∀ n ∈ mappedDefNames ri, qnormSq ((offsetQmap ri n).getD qid) = 1)

instance UnitCtx.dec (ri : RetIn) : Decidable (UnitCtx ri) := by
  unfold UnitCtx
  infer_instance

theorem qnormSq_qid : qnormSq qid = 1 := by decide

theorem contains_mem {l : List String} {a : String}
    (h : l.contains a = true) : a ∈ l := by
  simpa using h

theorem mem_contains {l : List String} {a : String}
    (h : a ∈ l) : l.contains a = true := by
  simpa using h

theorem sampleAt_unit {ri : RetIn} (hctx : UnitCtx ri) {f : ℕ}
    (hf : f < max 1 (fcOf ri)) (n : String) :
    qnormSq (sampleAt ri f n) = 1 := by
  unfold sampleAt
  cases h : objGet (quatTracksOf ri) n with
  | none => exact qnormSq_qid
  | some tr => exact hctx.2.1 _ (objGet_some_mem h) f hf

theorem defFind_mem {s : DefSkel} {n : String} {b : DefBone}
    (h : defFind s n = some b) : b ∈ s.bones :=
  List.mem_of_find?_eq_some h

theorem defFind_name {s : DefSkel} {n : String} {b : DefBone}
    (h : defFind s n = some b) : b.name = n := by
  have := List.find?_some h
  simpa using this

theorem defWorldRestQAux_unit {s : DefSkel}
    (hres : ∀ b ∈ s.bones, qnormSq b.localQ = 1) :
    ∀ fuel n, qnormSq (defWorldRestQAux s fuel n) = 1 := by
  intro fuel
  induction fuel with
  | zero =>
    intro n
    unfold defWorldRestQAux
    cases h : defFind s n with
    | none => exact qnormSq_qid
    | some b => exact hres b (defFind_mem h)
  | succ fuel ih =>
    intro n
    unfold defWorldRestQAux
    cases h : defFind s n with
    | none => exact qnormSq_qid
    | some b =>
      dsimp only
      cases hp : b.parent with
      | none => exact hres b (defFind_mem h)
      | some p =>
        rw [qnormSq_qmul, ih p, hres b (defFind_mem h)]
        norm_num

theorem defWorldRestQ_unit {s : DefSkel}
    (hres : ∀ b ∈ s.bones, qnormSq b.localQ = 1) (n : String) :
    qnormSq (defWorldRestQ s n) = 1 :=
  defWorldRestQAux_unit hres _ n

theorem defRestLocalQ_unit {s : DefSkel}
    (hres : ∀ b ∈ s.bones, qnormSq b.localQ = 1) (n : String) :
    qnormSq (defRestLocalQ s n) = 1 := by
  unfold defRestLocalQ
  cases h : defFind s n with
  | none => exact qnormSq_qid
  | some b =>
    dsimp only
    cases hp : b.parent with
    | none => exact defWorldRestQ_unit hres n
    | some p =>
      rw [qnormSq_qmul, qnormSq_qconj, defWorldRestQ_unit hres,
        defWorldRestQ_unit hres]
      norm_num

theorem accumVal_unit {sample : String → Quat} {m : String → Option Quat}
    (hs : ∀ n, qnormSq (sample n) = 1) (hm : MapUnit m)
    (e : String × Option String) : qnormSq (accumVal sample m e) = 1 := by
  unfold accumVal
  cases hp : e.snd with
  | none => exact hs e.fst
  | some p =>
    dsimp only
    cases hmp : m p with
    | none => exact hs e.fst
    | some pw =>
      rw [qnormSq_qmul, hm p pw hmp, hs e.fst]
      norm_num

theorem accumStep_unit {sample : String → Quat} {m : String → Option Quat}
    (hs : ∀ n, qnormSq (sample n) = 1) (hm : MapUnit m)
    (e : String × Option String) : MapUnit (accumStep sample m e) := by
  intro n q h
  unfold accumStep at h
  by_cases hn : n = e.fst
  · rw [if_pos hn] at h
    injection h with h
    rw [← h]
    exact accumVal_unit hs hm e
  · rw [if_neg hn] at h
    exact hm n q h

theorem accumFrom_unit {sample : String → Quat}
    (hs : ∀ n, qnormSq (sample n) = 1) :
    ∀ (entries : List (String × Option String)) (m : String → Option Quat),
      MapUnit m → MapUnit (accumFrom m entries sample) := by
  intro entries
  induction entries with
  | nil => intro m hm; exact hm
  | cons e es ih =>
    intro m hm
    exact ih _ (accumStep_unit hs hm e)

theorem bvhRestWorldQ_unit {ri : RetIn} (hctx : UnitCtx ri) :
    MapUnit (bvhRestWorldQ ri) := by
  unfold bvhRestWorldQ
  split
  · exact accumFrom_unit
      (sampleAt_unit hctx (Nat.lt_of_lt_of_le Nat.zero_lt_one (le_max_left _ _)))
      _ _ (fun n q h => by simp at h)
  · intro n q h
    simp at h

theorem parentWorldAt_unit {ri : RetIn} {world : String → Option Quat}
    (hw : MapUnit world) (defName : String) :
    qnormSq (parentWorldAt ri world defName) = 1 := by
  unfold parentWorldAt
  cases h : (defFind ri.defSkel defName).bind DefBone.parent with
  | none => exact qnormSq_qid
  | some p =>
    dsimp only
    cases hp : world p with
    | none => simp [hp, qnormSq_qid]
    | some q => simpa using hw p q hp

theorem localQAt_unit {ri : RetIn} (hctx : UnitCtx ri)
    {bvhW world : String → Option Quat}
    (hb : MapUnit bvhW) (hw : MapUnit world) {defName : String}
    (hmem : defName ∈ mappedDefNames ri) :
    qnormSq (localQAt ri bvhW world defName) = 1 := by
  have hrest := @defRestLocalQ_unit ri.defSkel hctx.1
  have hpar := @parentWorldAt_unit ri world hw defName
  have hoff := hctx.2.2 _ hmem
  unfold localQAt
  cases hg : objGet (defToBvhName ri) defName with
  | none => exact hrest _
  | some bvhName =>
    dsimp only
    split
    · cases hbw : bvhW bvhName with
      | none => exact hrest _
      | some w =>
        cases hrw : bvhRestWorldQ ri bvhName with
        | none => exact hrest _
        | some w0 =>
          dsimp only
          have h1 : qnormSq (qmul (qmul w (qconj w0))
              ((offsetQmap ri defName).getD qid)) = 1 := by
            rw [qnormSq_qmul, qnormSq_qmul, qnormSq_qconj, hb _ _ hbw,
              bvhRestWorldQ_unit hctx _ _ hrw, hoff]
            norm_num
          rw [qnormalize_of_unit h1]
          have h2 : qnormSq (qmul (qconj (parentWorldAt ri world defName))
              (qmul (qmul w (qconj w0)) ((offsetQmap ri defName).getD qid))) = 1 := by
            rw [qnormSq_qmul, qnormSq_qconj, hpar, h1]
            norm_num
          rw [qnormalize_of_unit h2]
          exact h2
    · cases hbw : bvhW bvhName with
      | none => exact hrest _
      | some w =>
        dsimp only
        have h1 : qnormSq (qmul w ((offsetQmap ri defName).getD qid)) = 1 := by
          rw [qnormSq_qmul, hb _ _ hbw, hoff]
          norm_num
        rw [qnormalize_of_unit h1]
        have h2 : qnormSq (qmul (qconj (parentWorldAt ri world defName))
            (qmul w ((offsetQmap ri defName).getD qid))) = 1 := by
          rw [qnormSq_qmul, qnormSq_qconj, hpar, h1]
          norm_num
        rw [qnormalize_of_unit h2]
        exact h2

theorem defStep_world_unit {ri : RetIn} (hctx : UnitCtx ri) {f : ℕ}
    {st : FrameState} (hw : MapUnit st.world) (hb : MapUnit st.bvhW)
    (n : String) : MapUnit (defStep ri f st n).world := by
  intro m q h
  unfold defStep at h
  split at h
  case isTrue hmap =>
    dsimp only at h
    by_cases hm : m = n
    · rw [if_pos hm] at h
      injection h with h
      rw [← h, qnormSq_qmul, parentWorldAt_unit hw n,
        localQAt_unit hctx hb hw (contains_mem hmap)]
      norm_num
    · rw [if_neg hm] at h
      exact hw m q h
  case isFalse hmap =>
    dsimp only at h
    by_cases hm : m = n
    · rw [if_pos hm] at h
      injection h with h
      rw [← h, qnormSq_qmul, parentWorldAt_unit hw n,
        defRestLocalQ_unit hctx.1]
      norm_num
    · rw [if_neg hm] at h
      exact hw m q h

/-- Membership in objSet-built lists. -/
theorem mem_objSet {α : Type} {l : List (String × α)} {k : String} {v : α}
    {p : String × α} (h : p ∈ objSet l k v) : p = (k, v) ∨ p ∈ l := by
  induction l with
  | nil => simpa [objSet] using h
  | cons a l ih =>
    rcases a with ⟨a1, a2⟩
    unfold objSet at h
    by_cases hk : a1 = k
    · rw [if_pos hk] at h
      rcases List.mem_cons.mp h with h1 | h1
      · exact Or.inl h1
      · exact Or.inr (List.mem_cons_of_mem _ h1)
    · rw [if_neg hk] at h
      rcases List.mem_cons.mp h with h1 | h1
      · exact Or.inr (h1 ▸ List.mem_cons_self _ _)
      · rcases ih h1 with h2 | h2
        · exact Or.inl h2
        · exact Or.inr (List.mem_cons_of_mem _ h2)

/-- Every defToBvhName entry passed the existence filter: its DEF bone is in
the skeleton and its BVH bone is in the source tree. -/
theorem defToBvhName_entry_found (ri : RetIn) :
    ∀ p ∈ defToBvhName ri,
      (defFind ri.defSkel p.fst).isSome = true
        ∧ (bvhBoneByName ri.tree p.snd).isSome = true := by
  have main : ∀ (tbl : List (String × Option String))
      (acc : List (String × String)),
      (∀ p ∈ acc, (defFind ri.defSkel p.fst).isSome = true
        ∧ (bvhBoneByName ri.tree p.snd).isSome = true) →
      ∀ p ∈ tbl.foldl (defToBvhStep ri) acc,
      (defFind ri.defSkel p.fst).isSome = true
        ∧ (bvhBoneByName ri.tree p.snd).isSome = true := by
    intro tbl
    induction tbl with
    | nil => intro acc hacc p hp; exact hacc p hp
    | cons e tbl ih =>
      intro acc hacc p hp
      rw [List.foldl_cons] at hp
      refine ih _ ?_ p hp
      intro q hq
      unfold defToBvhStep at hq
      cases he : e.snd with
      | none =>
        rw [he] at hq
        exact hacc q hq
      | some defName =>
        rw [he] at hq
        dsimp only at hq
        by_cases hcond : ((bvhBoneByName ri.tree e.fst).isSome
            && (defFind ri.defSkel defName).isSome
            && !(ri.skipDefBones.contains defName)) = true
        · rw [if_pos hcond] at hq
          simp only [Bool.and_eq_true] at hcond
          rcases mem_objSet hq with rfl | hq2
          · exact ⟨hcond.left.right, hcond.left.left⟩
          · exact hacc q hq2
        · rw [if_neg hcond] at hq
          exact hacc q hq
  intro p hp
  exact main (mappingOf ri) [] (by intro q hq; simp at hq) p hp

/-- A mapped DEF name is a key of the target skeleton. -/
theorem mapped_mem_bone_names {ri : RetIn} {n : String}
    (h : n ∈ mappedDefNames ri) : n ∈ ri.defSkel.bones.map DefBone.name := by
  rcases List.mem_map.mp h with ⟨p, hp, rfl⟩
  have hfound := (defToBvhName_entry_found ri p hp).left
  cases hf : defFind ri.defSkel p.fst with
  | none => rw [hf] at hfound; simp at hfound
  | some b =>
    have hb := defFind_name hf
    exact hb ▸ List.mem_map_of_mem DefBone.name (defFind_mem hf)

theorem mem_sortInsert {key : String → ℕ} {x a : String} {l : List String}
    (h : a ∈ sortInsert key x l) : a = x ∨ a ∈ l := by
  induction l with
  | nil => simpa [sortInsert] using h
  | cons y ys ih =>
    unfold sortInsert at h
    by_cases hc : key x < key y
    · rw [if_pos hc] at h
      rcases List.mem_cons.mp h with h1 | h1
      · exact Or.inl h1
      · exact Or.inr h1
    · rw [if_neg hc] at h
      rcases List.mem_cons.mp h with h1 | h1
      · exact Or.inr (h1 ▸ List.mem_cons_self _ _)
      · rcases ih h1 with h2 | h2
        · exact Or.inl h2
        · exact Or.inr (List.mem_cons_of_mem _ h2)

theorem sortInsert_mem {key : String → ℕ} {x a : String} {l : List String}
    (h : a = x ∨ a ∈ l) : a ∈ sortInsert key x l := by
  induction l with
  | nil =>
    rcases h with rfl | h
    · simp [sortInsert]
    · simp at h
  | cons y ys ih =>
    unfold sortInsert
    by_cases hc : key x < key y
    · rw [if_pos hc]
      rcases h with rfl | h
      · exact List.mem_cons_self _ _
      · exact List.mem_cons_of_mem _ h
    · rw [if_neg hc]
      rcases h with rfl | h
      · exact List.mem_cons_of_mem _ (ih (Or.inl rfl))
      · rcases List.mem_cons.mp h with h1 | h1
        · exact h1 ▸ List.mem_cons_self _ _
        · exact List.mem_cons_of_mem _ (ih (Or.inr h1))

theorem mem_sortByDepth {key : String → ℕ} {a : String} {l : List String} :
    a ∈ sortByDepth key l ↔ a ∈ l := by
  induction l with
  | nil => simp [sortByDepth]
  | cons x xs ih =>
    unfold sortByDepth
    constructor
    · intro h
      rcases mem_sortInsert h with rfl | h1
      · exact List.mem_cons_self _ _
      · exact List.mem_cons_of_mem _ (ih.mp h1)
    · intro h
      rcases List.mem_cons.mp h with rfl | h1
      · exact sortInsert_mem (Or.inl rfl)
      · exact sortInsert_mem (Or.inr (ih.mpr h1))

/-- A mapped DEF name occurs in the depth-sorted traversal. -/
theorem mapped_mem_sorted {ri : RetIn} {n : String}
    (h : n ∈ mappedDefNames ri) : n ∈ allDefBonesSorted ri :=
  mem_sortByDepth.mpr (mapped_mem_bone_names h)

/-- Step 2 fold invariant: the world buffer keeps only unit quaternions, and
every processed mapped bone has a unit quaternion in its frame-f output
slot. -/
theorem foldl_defStep_unit {ri : RetIn} (hctx : UnitCtx ri) (f : ℕ) :
    ∀ (l : List String) (st : FrameState),
      MapUnit st.world → MapUnit st.bvhW →
      MapUnit ((l.foldl (defStep ri f) st).world)
        ∧ ∀ n ∈ l, n ∈ mappedDefNames ri →
            qnormSq ((l.foldl (defStep ri f) st).out n f) = 1 := by
  intro l
  induction l with
  | nil =>
    intro st hw hb
    exact ⟨hw, by simp⟩
  | cons a l ih =>
    intro st hw hb
    have hw' : MapUnit (defStep ri f st a).world := defStep_world_unit hctx hw hb a
    have hb' : MapUnit (defStep ri f st a).bvhW := by
      rw [defStep_bvhW]; exact hb
    obtain ⟨ih1, ih2⟩ := ih (defStep ri f st a) hw' hb'
    refine ⟨by simpa using ih1, ?_⟩
    intro n hn hmapped
    rcases List.mem_cons.mp hn with rfl | hn'
    · by_cases hnl : n ∈ l
      · simpa using ih2 n hnl hmapped
      · rw [List.foldl_cons, foldl_defStep_out_notmem _ _ _ _ _ _ hnl,
          defStep_out_self _ _ _ _ (mem_contains hmapped)]
        exact localQAt_unit hctx hb hw hmapped
    · simpa using ih2 n hn' hmapped

theorem stepBvh_world (ri : RetIn) (st : FrameState) (f : ℕ) :
    (stepBvh ri st f).world = st.world := rfl

theorem stepBvh_out (ri : RetIn) (st : FrameState) (f : ℕ) :
    (stepBvh ri st f).out = st.out := rfl

theorem stepBvh_bvhW_unit {ri : RetIn} (hctx : UnitCtx ri) {st : FrameState}
    (hb : MapUnit st.bvhW) {f : ℕ} (hf : f < fcOf ri) :
    MapUnit (stepBvh ri st f).bvhW := by
  unfold stepBvh
  exact accumFrom_unit
    (sampleAt_unit hctx (Nat.lt_of_lt_of_le hf (le_max_right _ _))) _ _ hb

/-- Frame invariant: after frame f, the world and BVH buffers hold unit
quaternions and every mapped bone's frame-f output slot is unit. -/
theorem frameStep_unit {ri : RetIn} (hctx : UnitCtx ri) {st : FrameState}
    (hw : MapUnit st.world) (hb : MapUnit st.bvhW) {f : ℕ}
    (hf : f < fcOf ri) :
    MapUnit (frameStep ri st f).world ∧ MapUnit (frameStep ri st f).bvhW
      ∧ ∀ n ∈ mappedDefNames ri, qnormSq ((frameStep ri st f).out n f) = 1 := by
  have hb1 : MapUnit (stepBvh ri st f).bvhW := stepBvh_bvhW_unit hctx hb hf
  have hw1 : MapUnit (stepBvh ri st f).world := by rw [stepBvh_world]; exact hw
  obtain ⟨h1, h2⟩ := foldl_defStep_unit hctx f (allDefBonesSorted ri)
    (stepBvh ri st f) hw1 hb1
  refine ⟨h1, ?_, ?_⟩
  · unfold frameStep
    rw [foldl_defStep_bvhW]
    exact hb1
  · intro n hn
    exact h2 n (mapped_mem_sorted hn) hn

/-- Run invariant after the first k frames. -/
theorem frames_unit {ri : RetIn} (hctx : UnitCtx ri) :
    ∀ k, k ≤ fcOf ri →
      MapUnit (((List.range k).foldl (frameStep ri) initState).world)
        ∧ MapUnit (((List.range k).foldl (frameStep ri) initState).bvhW)
        ∧ ∀ f < k, ∀ n ∈ mappedDefNames ri,
            qnormSq ((((List.range k).foldl (frameStep ri) initState)).out n f) = 1 := by
  intro k
  induction k with
  | zero =>
    intro _
    refine ⟨?_, ?_, ?_⟩
    · intro n q h; simp [initState] at h
    · intro n q h; simp [initState] at h
    · intro f hf; exact absurd hf (Nat.not_lt_zero f)
  | succ k ih =>
    intro hk
    obtain ⟨ihw, ihb, ihout⟩ := ih (Nat.le_of_succ_le hk)
    have hkfc : k < fcOf ri := hk
    obtain ⟨h1, h2, h3⟩ := frameStep_unit hctx ihw ihb hkfc
    rw [List.range_succ, List.foldl_append, List.foldl_cons, List.foldl_nil]
    refine ⟨h1, h2, ?_⟩
    intro f hf n hn
    rcases Nat.lt_or_ge f k with hfk | hfk
    · rw [frameStep_out_fne _ _ _ _ _ (Nat.ne_of_lt hfk)]
      exact ihout f hfk n hn
    · have : f = k := Nat.le_antisymm (Nat.le_of_lt_succ hf) hfk
      subst this
      exact h3 n hn

/-- Whole-run invariant: every frame slot of every mapped bone in the final
output buffer holds a unit quaternion. -/
theorem retOut_unit {ri : RetIn} (hctx : UnitCtx ri) :
    ∀ f < fcOf ri, ∀ n ∈ mappedDefNames ri,
      qnormSq ((retOut ri).out n f) = 1 := by
  intro f hf n hn
  exact (frames_unit hctx (fcOf ri) (Nat.le_refl _)).2.2 f hf n hn

/-- Mid-frame invariant: during frame f, after any prefix of Step 2, the
world and BVH buffers hold unit quaternions. -/
theorem stMid_unit {ri : RetIn} (hctx : UnitCtx ri) {f : ℕ}
    (hf : f < fcOf ri) (l1 : List String) :
    MapUnit (stMid ri f l1).world ∧ MapUnit (stMid ri f l1).bvhW := by
  obtain ⟨hbw, hbb, _⟩ := frames_unit hctx f (Nat.le_of_lt hf)
  have hb1 : MapUnit (stepBvh ri (stBefore ri f) f).bvhW :=
    stepBvh_bvhW_unit hctx hbb hf
  have hw1 : MapUnit (stepBvh ri (stBefore ri f) f).world := by
    rw [stepBvh_world]; exact hbw
  constructor
  · exact (foldl_defStep_unit hctx f l1 _ hw1 hb1).1
  · unfold stMid
    rw [foldl_defStep_bvhW]
    exact hb1

/-- The optional root track is always a position track. -/
theorem rootPosTrackOf_is_pos {ri : RetIn} {t : OutTrack}
    (h : rootPosTrackOf ri = some t) :
    ∃ nm tms vals, t = OutTrack.pos nm tms vals := by
  unfold rootPosTrackOf at h
  cases h1 : rootPosDefOf ri with
  | none => rw [h1] at h; simp at h
  | some d =>
    rw [h1] at h
    cases h2 : objGet (posTracksOf ri) ri.tree.name with
    | none => rw [h2] at h; simp at h
    | some tr =>
      rw [h2] at h
      dsimp only at h
      cases h3 : defFind ri.defSkel d with
      | none => rw [h3] at h; simp at h
      | some defBone =>
        rw [h3] at h
        dsimp only at h
        injection h with h
        exact ⟨_, _, _, h.symm⟩

/-- C3: every quaternion stored in any produced output rotation track, for
every joint and every frame, has unit norm (exactly 1 in the exact-arithmetic
model, given unit-quaternion inputs): each composed quaternion is renormalized
before being written. -/
theorem c3_output_rotations_unit_norm (ri : RetIn) (hctx : UnitCtx ri) :
    ∀ tr ∈ (retargetBVHToDefClip ri).tracks, ∀ nm tms vals,
      tr = OutTrack.rot nm tms vals → ∀ q ∈ vals, qnormSq q = 1 := by
  intro tr htr nm tms vals heq q hq
  unfold retargetBVHToDefClip at htr
  cases hqt : quatTracksOf ri with
  | nil =>
    rw [hqt] at htr
    simp at htr
  | cons a as =>
    rw [hqt] at htr
    dsimp only at htr
    rcases List.mem_append.mp htr with hrot | hpos
    · unfold rotTracksOf at hrot
      rcases List.mem_map.mp hrot with ⟨n, hn, htr2⟩
      rw [← htr2] at heq
      injection heq with e1 e2 e3
      subst e3
      rcases List.mem_map.mp hq with ⟨f, hfmem, hqf⟩
      have hf : f < fcOf ri := List.mem_range.mp hfmem
      rw [← hqf]
      exact retOut_unit hctx f hf n hn
    · cases hrt : rootPosTrackOf ri with
      | none => rw [hrt] at hpos; simp at hpos
      | some t =>
        rw [hrt] at hpos
        simp at hpos
        obtain ⟨nm2, tms2, vals2, ht⟩ := rootPosTrackOf_is_pos hrt
        rw [hpos, ht] at heq
        exact absurd heq (by simp)

-- Concrete fixture used by the witnesses: a two-bone target skeleton, a
-- two-bone CMU source whose bones point along negative z (so every direction
-- correction is exact in rational arithmetic), one frame of identity
-- rotations and a root position track.
def wDefSkel : DefSkel :=
  ⟨[⟨"DEF-spine", none, qid, ⟨0, mkRat 9 10, 0⟩⟩,
    ⟨"DEF-spine.001", some "DEF-spine", qid, ⟨0, 0, -1⟩⟩]⟩

def wTree : BvhTree :=
  .node "Hips" ⟨0, 1, 0⟩ qid [.node "Spine" ⟨0, 0, -1⟩ qid []]

def wClip : Clip :=
  ⟨"src", 1,
   [⟨"Hips.quaternion", [0], [0, 0, 0, 1]⟩,
    ⟨"Spine.quaternion", [0], [0, 0, 0, 1]⟩,
    ⟨"Hips.position", [0], [1, 2, 3]⟩]⟩

def wRi : RetIn := ⟨wTree, wClip, wDefSkel, "CMU", [], some (mkRat 7 4)⟩

/-- Witness for C3 at the concrete fixture. -/
theorem c3_witness :
    UnitCtx wRi
      ∧ (∀ tr ∈ (retargetBVHToDefClip wRi).tracks, ∀ nm tms vals,
          tr = OutTrack.rot nm tms vals → ∀ q ∈ vals, qnormSq q = 1) :=
  ⟨by decide, c3_output_rotations_unit_norm wRi (by decide)⟩

/-- C1: in standard (WorldCopy) mode, for every frame and every mapped target
joint, the output local rotation equals the inverse of the parent target
joint's accumulated world rotation (identity when the parent has none)
composed with [the mapped source joint's accumulated world rotation at that
frame composed with the joint's precomputed offset quaternion], with the
composed quaternion renormalized. -/
theorem c1_worldcopy_local_rotation (ri : RetIn)
    (hctx : UnitCtx ri) (f : ℕ) (defName bvhName : String)
    (l1 l2 : List String) (w : Quat)
    (hstd : useDelta ri = false)
    (hf : f < fcOf ri)
    (hmap : objGet (defToBvhName ri) defName = some bvhName)
    (hsplit : allDefBonesSorted ri = l1 ++ defName :: l2)
    (hnotin : defName ∉ l2)
    (hw : (stMid ri f l1).bvhW bvhName = some w) :
    (retOut ri).out defName f
      = qnormalize (qmul (qconj (parentWorldAt ri (stMid ri f l1).world defName))
          (qmul w ((offsetQmap ri defName).getD qid))) := by
  have hmem : defName ∈ mappedDefNames ri := by
    unfold mappedDefNames
    exact objGet_some_mem_keys hmap
  have hcont := mem_contains hmem
  rw [retOut_out_eq ri defName f hf,
    frameStep_out_split ri f _ defName l1 l2 hsplit hnotin,
    defStep_out_self _ _ _ _ hcont]
  show localQAt ri (stMid ri f l1).bvhW (stMid ri f l1).world defName = _
  unfold localQAt
  rw [hmap]
  dsimp only
  simp only [hstd, Bool.false_eq_true, if_false]
  rw [hw]
  dsimp only
  have hwu : qnormSq w = 1 := (stMid_unit hctx hf l1).2 bvhName w hw
  have hu : qnormSq (qmul w ((offsetQmap ri defName).getD qid)) = 1 := by
    rw [qnormSq_qmul, hwu, hctx.2.2 _ hmem]
    norm_num
  rw [qnormalize_of_unit hu]

/-- Witness for C1: the child bone of the two-bone CMU fixture at frame 0. -/
theorem c1_witness :
    UnitCtx wRi ∧ useDelta wRi = false ∧ 0 < fcOf wRi
      ∧ objGet (defToBvhName wRi) "DEF-spine.001" = some "Spine"
      ∧ allDefBonesSorted wRi = ["DEF-spine"] ++ "DEF-spine.001" :: []
      ∧ "DEF-spine.001" ∉ ([] : List String)
      ∧ (stMid wRi 0 ["DEF-spine"]).bvhW "Spine" = some qid
      ∧ (retOut wRi).out "DEF-spine.001" 0
          = qnormalize (qmul
              (qconj (parentWorldAt wRi (stMid wRi 0 ["DEF-spine"]).world
                "DEF-spine.001"))
              (qmul qid ((offsetQmap wRi "DEF-spine.001").getD qid))) :=
  ⟨by decide, by decide, by decide, by decide, by decide, by decide, by decide,
   c1_worldcopy_local_rotation wRi (by decide) 0 "DEF-spine.001" "Spine"
     ["DEF-spine"] [] qid (by decide) (by decide) (by decide) (by decide)
     (by decide) (by decide)⟩

-- =========================================================================
-- Delta mode: frame accumulation against the frame-0 accumulation
-- =========================================================================

/-- Every entry's parent was traversed before it (true of the preorder
hierarchy walk; stated as a decidable check so concrete instances evaluate). -/
def parentsFirstAux : List String → List (String × Option String) → Bool
  | _, [] => true
  | seen, e :: rest =>
    (match e.snd with
     | none => true
     | some p => seen.contains p) && parentsFirstAux (e.fst :: seen) rest

/-- Two world-rotation accumulations agree on every traversed name when their
samples agree on the traversal and their starting buffers agree on the names
already seen: each traversal entry is written before any child reads it, so
the starting buffer is never consulted. -/
theorem accumFrom_agree (sample sample' : String → Quat) :
    ∀ (entries : List (String × Option String)) (seen : List String)
      (m m' : String → Option Quat),
      parentsFirstAux seen entries = true →
      (∀ p, seen.contains p = true → m p = m' p) →
      (∀ n ∈ entries.map Prod.fst, sample n = sample' n) →
      ∀ p, (seen.contains p = true ∨ p ∈ entries.map Prod.fst) →
        accumFrom m entries sample p = accumFrom m' entries sample' p := by
  intro entries
  induction entries with
  | nil =>
    intro seen m m' _ hagree _ p hp
    rcases hp with hp | hp
    · exact hagree p hp
    · simp at hp
  | cons e es ih =>
    intro seen m m' hpf hagree hsamp p hp
    unfold parentsFirstAux at hpf
    rw [Bool.and_eq_true] at hpf
    have hse : sample e.fst = sample' e.fst :=
      hsamp e.fst (List.mem_map_of_mem Prod.fst (List.mem_cons_self e es))
    have hval : accumVal sample m e = accumVal sample' m' e := by
      unfold accumVal
      cases hpe : e.snd with
      | none => exact hse
      | some q =>
        dsimp only
        have hmq : m q = m' q := by
          apply hagree
          have := hpf.left
          rwa [hpe] at this
        rw [hmq, hse]
    have hagree' : ∀ p', (e.fst :: seen).contains p' = true →
        accumStep sample m e p' = accumStep sample' m' e p' := by
      intro p' hp'
      unfold accumStep
      by_cases hpe : p' = e.fst
      · rw [if_pos hpe, if_pos hpe, hval]
      · rw [if_neg hpe, if_neg hpe]
        apply hagree
        simp only [List.contains_cons] at hp'
        rcases (Bool.or_eq_true _ _).mp hp' with h1 | h1
        · exact absurd (by simpa using h1) hpe
        · exact h1
    have hsamp' : ∀ n ∈ es.map Prod.fst, sample n = sample' n := by
      intro n hn
      exact hsamp n (by
        simp only [List.map_cons]
        exact List.mem_cons_of_mem _ hn)
    have hrec := ih (e.fst :: seen) (accumStep sample m e)
      (accumStep sample' m' e) hpf.right hagree' hsamp'
    show (es.foldl (accumStep sample) (accumStep sample m e)) p
      = (es.foldl (accumStep sample') (accumStep sample' m' e)) p
    apply hrec
    rcases hp with hp | hp
    · left
      simp only [List.contains_cons]
      exact (Bool.or_eq_true _ _).mpr (Or.inr hp)
    · simp only [List.map_cons] at hp
      rcases List.mem_cons.mp hp with rfl | hp2
      · left
        simp only [List.contains_cons]
        exact (Bool.or_eq_true _ _).mpr (Or.inl (by simp))
      · right
        exact hp2

/-- In delta mode, when the frame-f samples coincide with the frame-0
samples, Step 1 reproduces bvhRestWorldQ on every traversed bone, whatever
buffer it starts from. -/
theorem stepBvh_eq_rest {ri : RetIn} (hd : useDelta ri = true)
    (hpf : parentsFirstAux [] (bvhEntries ri) = true) {f : ℕ}
    (hsamp : ∀ n ∈ (bvhEntries ri).map Prod.fst,
      sampleAt ri f n = sampleAt ri 0 n)
    (st : FrameState) {n : String}
    (hn : n ∈ (bvhEntries ri).map Prod.fst) :
    (stepBvh ri st f).bvhW n = bvhRestWorldQ ri n := by
  have : bvhRestWorldQ ri
      = accumFrom (fun _ => none) (bvhEntries ri) (sampleAt ri 0) := by
    unfold bvhRestWorldQ
    rw [if_pos hd]
  rw [this]
  exact accumFrom_agree (sampleAt ri f) (sampleAt ri 0) (bvhEntries ri) []
    st.bvhW (fun _ => none) hpf (by intro p hp; simp at hp) hsamp n (Or.inr hn)

set_option maxHeartbeats 1000000

/-- C2: for the delta-mode format (BANDAI), every mapped target joint's
output local rotation composes [source world rotation at the frame times the
inverse of the frame-0 source world rotation] with the offset quaternion and
re-expresses it below the parent, renormalized; and whenever the frame's
samples all equal the frame-0 samples (in particular at frame 0 itself), the
joint's accumulated world rotation after its step is exactly the offset
quaternion, i.e. the direction-corrected target rest orientation. -/
theorem c2_delta_retarget (ri : RetIn) (hctx : UnitCtx ri)
    (f : ℕ) (defName bvhName : String) (l1 l2 : List String) (w w0 : Quat)
    (hd : useDelta ri = true)
    (hf : f < fcOf ri)
    (hmap : objGet (defToBvhName ri) defName = some bvhName)
    (hnb : bvhName ∈ (bvhEntries ri).map Prod.fst)
    (hsplit : allDefBonesSorted ri = l1 ++ defName :: l2)
    (hnotin : defName ∉ l2)
    (hw : (stMid ri f l1).bvhW bvhName = some w)
    (hw0 : bvhRestWorldQ ri bvhName = some w0) :
    ((retOut ri).out defName f
        = qnormalize (qmul (qconj (parentWorldAt ri (stMid ri f l1).world defName))
            (qmul (qmul w (qconj w0)) ((offsetQmap ri defName).getD qid))))
    ∧ (parentsFirstAux [] (bvhEntries ri) = true →
        (∀ n ∈ (bvhEntries ri).map Prod.fst, sampleAt ri f n = sampleAt ri 0 n) →
        (frameStep ri (stBefore ri f) f).world defName
          = some ((offsetQmap ri defName).getD qid)) := by
  have hmem : defName ∈ mappedDefNames ri := by
    unfold mappedDefNames
    exact objGet_some_mem_keys hmap
  have hcont := mem_contains hmem
  have hwu : qnormSq w = 1 := (stMid_unit hctx hf l1).2 _ _ hw
  have hw0u : qnormSq w0 = 1 := bvhRestWorldQ_unit hctx _ _ hw0
  have hoffu : qnormSq ((offsetQmap ri defName).getD qid) = 1 := hctx.2.2 _ hmem
  have hpwu : qnormSq (parentWorldAt ri (stMid ri f l1).world defName) = 1 :=
    parentWorldAt_unit (stMid_unit hctx hf l1).1 defName
  have hdes : qnormSq (qmul (qmul w (qconj w0))
      ((offsetQmap ri defName).getD qid)) = 1 := by
    rw [qnormSq_qmul, qnormSq_qmul, qnormSq_qconj, hwu, hw0u, hoffu]
    norm_num
  constructor
  · rw [retOut_out_eq ri defName f hf,
      frameStep_out_split ri f _ defName l1 l2 hsplit hnotin,
      defStep_out_self _ _ _ _ hcont]
    show localQAt ri (stMid ri f l1).bvhW (stMid ri f l1).world defName = _
    unfold localQAt
    rw [hmap]
    dsimp only
    simp only [hd]
    rw [if_pos trivial, hw, hw0]
    dsimp only
    rw [qnormalize_of_unit hdes]
  · intro hpf hsamp
    have hbvw : (stMid ri f l1).bvhW bvhName = bvhRestWorldQ ri bvhName := by
      show (l1.foldl (defStep ri f) (stepBvh ri (stBefore ri f) f)).bvhW bvhName = _
      rw [foldl_defStep_bvhW]
      exact stepBvh_eq_rest hd hpf hsamp _ hnb
    have hww0 : w = w0 := by
      have h2 := hw
      rw [hbvw, hw0] at h2
      injection h2 with h2
      exact h2.symm
    subst hww0
    have hloc : localQAt ri (stMid ri f l1).bvhW (stMid ri f l1).world defName
        = qmul (qconj (parentWorldAt ri (stMid ri f l1).world defName))
            ((offsetQmap ri defName).getD qid) := by
      unfold localQAt
      rw [hmap]
      dsimp only
      simp only [hd]
      rw [if_pos trivial, hw, hw0]
      dsimp only
      rw [unit_qmul_conj_qmul hw0u, qnormalize_of_unit hoffu]
      apply qnormalize_of_unit
      rw [qnormSq_qmul, qnormSq_qconj, hpwu, hoffu]
      norm_num
    have hfold : l1.foldl (defStep ri f) (stepBvh ri (stBefore ri f) f)
        = stMid ri f l1 := rfl
    rw [frameStep_world_split ri f _ defName l1 l2 hsplit hnotin,
      defStep_world_self _ _ _ _ hcont, hfold, hloc, unit_qmul_cancel hpwu]

/-- The delta-mode (BANDAI) fixture: same skeletons, BANDAI format tag. -/
def wRiB : RetIn := ⟨wTree, wClip, wDefSkel, "BANDAI", [], some (mkRat 7 4)⟩

/-- Witness for C2: the child bone of the two-bone BANDAI fixture at frame 0. -/
theorem c2_witness :
    UnitCtx wRiB ∧ useDelta wRiB = true ∧ 0 < fcOf wRiB
      ∧ objGet (defToBvhName wRiB) "DEF-spine.001" = some "Spine"
      ∧ "Spine" ∈ (bvhEntries wRiB).map Prod.fst
      ∧ allDefBonesSorted wRiB = ["DEF-spine"] ++ "DEF-spine.001" :: []
      ∧ "DEF-spine.001" ∉ ([] : List String)
      ∧ (stMid wRiB 0 ["DEF-spine"]).bvhW "Spine" = some qid
      ∧ bvhRestWorldQ wRiB "Spine" = some qid
      ∧ (((retOut wRiB).out "DEF-spine.001" 0
            = qnormalize (qmul
                (qconj (parentWorldAt wRiB (stMid wRiB 0 ["DEF-spine"]).world
                  "DEF-spine.001"))
                (qmul (qmul qid (qconj qid))
                  ((offsetQmap wRiB "DEF-spine.001").getD qid))))
          ∧ (parentsFirstAux [] (bvhEntries wRiB) = true →
              (∀ n ∈ (bvhEntries wRiB).map Prod.fst,
                sampleAt wRiB 0 n = sampleAt wRiB 0 n) →
              (frameStep wRiB (stBefore wRiB 0) 0).world "DEF-spine.001"
                = some ((offsetQmap wRiB "DEF-spine.001").getD qid))) :=
  ⟨by decide, by decide, by decide, by decide, by decide, by decide, by decide,
   by decide, by decide,
   c2_delta_retarget wRiB (by decide) 0 "DEF-spine.001" "Spine" ["DEF-spine"]
     [] qid qid (by decide) (by decide) (by decide) (by decide) (by decide)
     (by decide) (by decide) (by decide)⟩

/-- C9: a source clip with no rotation tracks at all yields the structurally
valid empty output clip (name retargeted, duration 0, no tracks), with no
error path. -/
theorem c9_empty_clip (ri : RetIn) (h : quatTracksOf ri = []) :
    retargetBVHToDefClip ri = ⟨"retargeted", 0, []⟩ := by
  unfold retargetBVHToDefClip
  rw [h]

/-- A clip carrying only a position track triggers the empty-clip return. -/
def wRiE : RetIn :=
  ⟨wTree, ⟨"src", 1, [⟨"Hips.position", [0], [1, 2, 3]⟩]⟩, wDefSkel, "CMU",
   [], none⟩

/-- Witness for C9. -/
theorem c9_witness :
    quatTracksOf wRiE = []
      ∧ retargetBVHToDefClip wRiE = ⟨"retargeted", 0, []⟩ :=
  ⟨by decide, c9_empty_clip wRiE (by decide)⟩

/-- C10: the measured source height is clamped from below to 0.01, so it is
positive and never zero, and the height scale is the well-defined quotient
body height over clamped height. -/
theorem c10_height_scale_no_div_by_zero (ri : RetIn) :
    mkRat 1 100 ≤ bvhHeightOf ri.tree ∧ bvhHeightOf ri.tree ≠ 0
      ∧ heightScaleOf ri = bodyHOf ri / bvhHeightOf ri.tree := by
  have h1 : mkRat 1 100 ≤ bvhHeightOf ri.tree := by
    unfold bvhHeightOf
    exact le_max_right _ _
  refine ⟨h1, ?_, rdiv_eq _ _⟩
  intro h0
  rw [h0] at h1
  have h2 : (0 : ℚ) < mkRat 1 100 := by decide
  exact absurd (lt_of_lt_of_le h2 h1) (lt_irrefl 0)

/-- C6: the format classifier is total - it always lands in the closed tag
set, and when no diagnostic check matches it returns the stable default
UNKNOWN, for which the retarget function selects the designated default
(MOCAPNET) mapping table instead of failing. -/
theorem c6_classifier_total_fallback (names : List String) :
    detectBVHFormat names
        ∈ ["AIST", "BANDAI", "MIXAMO", "CMU", "MOCAPNET", "UNKNOWN"]
      ∧ (¬((names.contains "Pelvis" && names.contains "Left_hip") = true) →
         ¬((names.contains "Chest" && names.contains "UpperArm_L") = true) →
         ¬((names.contains "Hips" && names.contains "LeftArm") = true) →
         ¬((names.contains "hip" || names.contains "rshoulder") = true) →
         detectBVHFormat names = "UNKNOWN"
           ∧ mappingFor (detectBVHFormat names) = BVH_TO_DEF_MOCAPNET) := by
  constructor
  · unfold detectBVHFormat
    split
    · simp
    · split
      · simp
      · split
        · split
          · simp
          · simp
        · split
          · simp
          · simp
  · intro h1 h2 h3 h4
    have hU : detectBVHFormat names = "UNKNOWN" := by
      unfold detectBVHFormat
      rw [if_neg h1, if_neg h2, if_neg h3, if_neg h4]
    refine ⟨hU, ?_⟩
    rw [hU]
    decide

/-- Witness for C6 at a name set matching no diagnostic check. -/
theorem c6_witness :
    detectBVHFormat ["Foo", "Bar"] = "UNKNOWN"
      ∧ mappingFor (detectBVHFormat ["Foo", "Bar"]) = BVH_TO_DEF_MOCAPNET :=
  (c6_classifier_total_fallback ["Foo", "Bar"]).2 (by decide) (by decide)
    (by decide) (by decide)

/-- objSet keeps the key list duplicate-free. -/
theorem objSet_keys_nodup {α : Type} {l : List (String × α)} {k : String}
    {v : α} (h : (l.map Prod.fst).Nodup) :
    ((objSet l k v).map Prod.fst).Nodup := by
  induction l with
  | nil => simp [objSet]
  | cons a l ih =>
    rcases a with ⟨a1, a2⟩
    simp only [List.map_cons, List.nodup_cons] at h
    unfold objSet
    by_cases hk : a1 = k
    · rw [if_pos hk]
      simp only [List.map_cons, List.nodup_cons]
      exact ⟨hk ▸ h.left, h.right⟩
    · rw [if_neg hk]
      simp only [List.map_cons, List.nodup_cons]
      refine ⟨?_, ih h.right⟩
      intro hmem
      rcases List.mem_map.mp hmem with ⟨p, hp, hpe⟩
      rcases mem_objSet hp with rfl | hp2
      · exact hk hpe.symm
      · exact h.left (hpe ▸ List.mem_map_of_mem Prod.fst hp2)

/-- The defToBvhName keys are duplicate-free (JS object keys). -/
theorem defToBvhName_keys_nodup (ri : RetIn) :
    ((defToBvhName ri).map Prod.fst).Nodup := by
  have main : ∀ (tbl : List (String × Option String))
      (acc : List (String × String)), (acc.map Prod.fst).Nodup →
      ((tbl.foldl (defToBvhStep ri) acc).map Prod.fst).Nodup := by
    intro tbl
    induction tbl with
    | nil => intro acc hacc; exact hacc
    | cons e tbl ih =>
      intro acc hacc
      rw [List.foldl_cons]
      refine ih _ ?_
      unfold defToBvhStep
      cases he : e.snd with
      | none => exact hacc
      | some defName =>
        dsimp only
        split
        · exact objSet_keys_nodup hacc
        · exact hacc
  exact main (mappingOf ri) [] (by simp)

/-- A later fold step with a different key leaves an entry unchanged. -/
theorem offset_fold_frozen (ri : RetIn) :
    ∀ (entries : List (String × String)) (m : String → Option Quat)
      (k : String), k ∉ entries.map Prod.fst →
      (entries.foldl (offsetStep ri) m) k = m k := by
  intro entries
  induction entries with
  | nil => intro m k _; rfl
  | cons e es ih =>
    intro m k hk
    rw [List.foldl_cons]
    rw [ih _ k (fun hc => hk (by simp only [List.map_cons]; exact List.mem_cons_of_mem _ hc))]
    unfold offsetStep
    rw [if_neg]
    intro hc
    exact hk (by simp only [List.map_cons]; exact hc ▸ List.mem_cons_self _ _)

/-- With duplicate-free keys, the offset fold stores exactly the offset of
each entry under that entry's key. -/
theorem offset_fold_lookup (ri : RetIn) :
    ∀ (entries : List (String × String)) (m : String → Option Quat),
      (entries.map Prod.fst).Nodup →
      ∀ p ∈ entries,
        (entries.foldl (offsetStep ri) m) p.fst
          = some (offsetForEntry ri p.fst p.snd) := by
  intro entries
  induction entries with
  | nil => intro m _ p hp; simp at hp
  | cons e es ih =>
    intro m hnd p hp
    simp only [List.map_cons, List.nodup_cons] at hnd
    rcases List.mem_cons.mp hp with rfl | hp2
    · rw [List.foldl_cons, offset_fold_frozen ri es _ p.fst hnd.left]
      unfold offsetStep
      rw [if_pos rfl]
    · rw [List.foldl_cons]
      exact ih _ hnd.right p hp2

/-- C7: every mapped target joint that is the mapping root or belongs to the
per-format direction-correction exception list receives, as offset
quaternion, exactly its raw target world-rest rotation, with no direction
correction applied. -/
theorem c7_offset_exempt_is_raw_rest (ri : RetIn) (defName bvhName : String)
    (hmem : (defName, bvhName) ∈ defToBvhName ri)
    (hex : some defName = rootDefName ri
      ∨ (skipDirCorrectionBones ri.format).contains defName = true) :
    offsetQmap ri defName = some (defWorldRestQ ri.defSkel defName) := by
  have h1 := offset_fold_lookup ri (defToBvhName ri) (fun _ => none)
    (defToBvhName_keys_nodup ri) (defName, bvhName) hmem
  show (defToBvhName ri).foldl (offsetStep ri) (fun _ => none) defName = _
  rw [h1]
  unfold offsetForEntry
  rw [if_pos hex]

/-- AIST fixture for the exception list: an ankle mapped onto the DEF foot. -/
def wRiA : RetIn :=
  ⟨.node "Pelvis" ⟨0, 1, 0⟩ qid [.node "Left_ankle" ⟨0, 0, -1⟩ qid []],
   ⟨"src", 1, []⟩,
   ⟨[⟨"DEF-spine", none, qid, ⟨0, mkRat 9 10, 0⟩⟩,
     ⟨"DEF-foot.L", some "DEF-spine", qid, ⟨0, 0, -1⟩⟩]⟩,
   "AIST", [], none⟩

/-- Witness for C7 at the AIST fixture: DEF-foot.L is in the exception list
and its offset is the raw world rest rotation. -/
theorem c7_witness :
    ("DEF-foot.L", "Left_ankle") ∈ defToBvhName wRiA
      ∧ (some "DEF-foot.L" = rootDefName wRiA
          ∨ (skipDirCorrectionBones wRiA.format).contains "DEF-foot.L" = true)
      ∧ offsetQmap wRiA "DEF-foot.L"
          = some (defWorldRestQ wRiA.defSkel "DEF-foot.L") :=
  ⟨by decide, by decide,
   c7_offset_exempt_is_raw_rest wRiA "DEF-foot.L" "Left_ankle" (by decide)
     (by decide)⟩

/-- C8: the root position track is attached to the BVH root's own mapped
target joint when its mapping is truthy; when the root maps to null (or is
absent from the table) and a root position track exists, it is attached to
the first child of the BVH root (in child order) whose mapping is truthy;
and the produced clip then contains the position track named after that DEF
bone. -/
theorem c8_root_position_attachment (ri : RetIn) :
    (∀ d, mappingLookup (mappingOf ri) ri.tree.name = some d →
        rootPosDefOf ri = some d)
      ∧ (mappingLookup (mappingOf ri) ri.tree.name = none →
          (objGet (posTracksOf ri) ri.tree.name).isSome = true →
          ∀ c, ri.tree.children.find?
              (fun c => (mappingLookup (mappingOf ri) c.name).isSome) = some c →
            rootPosDefOf ri = mappingLookup (mappingOf ri) c.name)
      ∧ (∀ d tr b, rootPosDefOf ri = some d →
          objGet (posTracksOf ri) ri.tree.name = some tr →
          defFind ri.defSkel d = some b →
          quatTracksOf ri ≠ [] →
          OutTrack.pos (b.name ++ ".position") tr.times
              (scaledRootValues b.pos
                ⟨tr.values.getD 0 0, tr.values.getD 1 0, tr.values.getD 2 0⟩
                (heightScaleOf ri) tr.values)
            ∈ (retargetBVHToDefClip ri).tracks) := by
  refine ⟨?_, ?_, ?_⟩
  · intro d h
    unfold rootPosDefOf
    rw [h]
  · intro h hpos c hc
    unfold rootPosDefOf
    rw [h]
    dsimp only
    rw [if_pos hpos, hc]
    rfl
  · intro d tr b hd htr hb hq
    have hpt : rootPosTrackOf ri
        = some (OutTrack.pos (b.name ++ ".position") tr.times
            (scaledRootValues b.pos
              ⟨tr.values.getD 0 0, tr.values.getD 1 0, tr.values.getD 2 0⟩
              (heightScaleOf ri) tr.values)) := by
      unfold rootPosTrackOf
      rw [hd, htr]
      dsimp only
      rw [hb]
    unfold retargetBVHToDefClip
    cases hqt : quatTracksOf ri with
    | nil => exact absurd hqt hq
    | cons a as =>
      dsimp only
      apply List.mem_append.mpr
      right
      rw [hpt]
      simp

/-- Fixture for the root-position fallback: a BANDAI-style organizational
root mapped to null, with the position track on it. -/
def wRiR : RetIn :=
  ⟨.node "joint_Root" vzero qid [.node "Hips" ⟨0, 1, 0⟩ qid []],
   ⟨"src", 1,
    [⟨"Hips.quaternion", [0], [0, 0, 0, 1]⟩,
     ⟨"joint_Root.position", [0], [1, 2, 3]⟩]⟩,
   wDefSkel, "BANDAI", [], none⟩

/-- Witness for C8: the null-mapped root falls back to the first mapped
child (Hips, mapped to DEF-spine) and the clip contains the position track. -/
theorem c8_witness :
    mappingLookup (mappingOf wRiR) wRiR.tree.name = none
      ∧ (objGet (posTracksOf wRiR) wRiR.tree.name).isSome = true
      ∧ rootPosDefOf wRiR = some "DEF-spine"
      ∧ (∃ tr b, objGet (posTracksOf wRiR) wRiR.tree.name = some tr
          ∧ defFind wRiR.defSkel "DEF-spine" = some b
          ∧ OutTrack.pos (b.name ++ ".position") tr.times
              (scaledRootValues b.pos
                ⟨tr.values.getD 0 0, tr.values.getD 1 0, tr.values.getD 2 0⟩
                (heightScaleOf wRiR) tr.values)
            ∈ (retargetBVHToDefClip wRiR).tracks) := by
  refine ⟨by decide, by decide, by decide, ?_⟩
  refine ⟨⟨"joint_Root.position", [0], [1, 2, 3]⟩,
    ⟨"DEF-spine", none, qid, ⟨0, mkRat 9 10, 0⟩⟩, by decide, by decide, ?_⟩
  exact (c8_root_position_attachment wRiR).2.2 "DEF-spine"
    ⟨"joint_Root.position", [0], [1, 2, 3]⟩
    ⟨"DEF-spine", none, qid, ⟨0, mkRat 9 10, 0⟩⟩
    (by decide) (by decide) (by decide) (by decide)

/-- Fixture for C5: the bone Spine exists in the source skeleton and is
mapped, but the clip has no Spine rotation track. -/
def wRiC : RetIn :=
  ⟨wTree, ⟨"src", 1, [⟨"Hips.quaternion", [0], [0, 0, 0, 1]⟩]⟩, wDefSkel,
   "CMU", [], none⟩

/-- Counterexample to C5 as stated: the mapping entry Spine (no rotation
track in the clip, but a bone in the skeleton) to DEF-spine.001 is NOT
excluded - the output still contains a rotation track for DEF-spine.001, and
the clip has 2 rotation tracks, not one fewer than the 2 joints matched in
the table. -/
theorem c5_counterexample :
    objGet (quatTracksOf wRiC) "Spine" = none
      ∧ ("Spine", some "DEF-spine.001") ∈ mappingOf wRiC
      ∧ "DEF-spine.001" ∈ mappedDefNames wRiC
      ∧ OutTrack.rot "DEF-spine.001.quaternion" [0] [qid]
          ∈ (retargetBVHToDefClip wRiC).tracks
      ∧ (retargetBVHToDefClip wRiC).tracks.length = 2 :=
  ⟨by decide, by decide, by decide, by decide, by decide⟩

def OutTrack.isRot : OutTrack → Bool
  | .rot _ _ _ => true
  | .pos _ _ _ => false

/-- Keys survive objSet. -/
theorem mem_keys_objSet {α : Type} {l : List (String × α)} {k' k : String}
    {v : α} (h : k' ∈ l.map Prod.fst) : k' ∈ (objSet l k v).map Prod.fst := by
  induction l with
  | nil => simp at h
  | cons a l ih =>
    rcases a with ⟨a1, a2⟩
    unfold objSet
    by_cases hk : a1 = k
    · rw [if_pos hk]
      simp only [List.map_cons] at h ⊢
      rcases List.mem_cons.mp h with rfl | h2
      · exact hk ▸ List.mem_cons_self _ _
      · exact List.mem_cons_of_mem _ h2
    · rw [if_neg hk]
      simp only [List.map_cons] at h ⊢
      rcases List.mem_cons.mp h with rfl | h2
      · exact List.mem_cons_self _ _
      · exact List.mem_cons_of_mem _ (ih h2)

/-- The key set in objSet. -/
theorem objSet_mem_key {α : Type} (l : List (String × α)) (k : String)
    (v : α) : k ∈ (objSet l k v).map Prod.fst := by
  induction l with
  | nil => simp [objSet]
  | cons a l ih =>
    rcases a with ⟨a1, a2⟩
    unfold objSet
    by_cases hk : a1 = k
    · rw [if_pos hk]
      simp
    · rw [if_neg hk]
      simp only [List.map_cons]
      exact List.mem_cons_of_mem _ ih

/-- The defToBvhName fold never loses keys. -/
theorem defToBvh_fold_keys_mono (ri : RetIn) :
    ∀ (tbl : List (String × Option String)) (acc : List (String × String))
      (k : String), k ∈ acc.map Prod.fst →
      k ∈ (tbl.foldl (defToBvhStep ri) acc).map Prod.fst := by
  intro tbl
  induction tbl with
  | nil => intro acc k hk; exact hk
  | cons e tbl ih =>
    intro acc k hk
    rw [List.foldl_cons]
    refine ih _ k ?_
    unfold defToBvhStep
    cases e.snd with
    | none => exact hk
    | some defName =>
      dsimp only
      split
      · exact mem_keys_objSet hk
      · exact hk

/-- Full specification of which mapping entries survive the filter. -/
theorem defToBvhName_entry_spec (ri : RetIn) :
    ∀ p ∈ defToBvhName ri,
      (p.snd, some p.fst) ∈ mappingOf ri
        ∧ (bvhBoneByName ri.tree p.snd).isSome = true
        ∧ (defFind ri.defSkel p.fst).isSome = true
        ∧ ri.skipDefBones.contains p.fst = false := by
  have main : ∀ (tbl : List (String × Option String))
      (acc : List (String × String)),
      (∀ e ∈ tbl, e ∈ mappingOf ri) →
      (∀ p ∈ acc, (p.snd, some p.fst) ∈ mappingOf ri
        ∧ (bvhBoneByName ri.tree p.snd).isSome = true
        ∧ (defFind ri.defSkel p.fst).isSome = true
        ∧ ri.skipDefBones.contains p.fst = false) →
      ∀ p ∈ tbl.foldl (defToBvhStep ri) acc,
        (p.snd, some p.fst) ∈ mappingOf ri
          ∧ (bvhBoneByName ri.tree p.snd).isSome = true
          ∧ (defFind ri.defSkel p.fst).isSome = true
          ∧ ri.skipDefBones.contains p.fst = false := by
    intro tbl
    induction tbl with
    | nil => intro acc _ hacc p hp; exact hacc p hp
    | cons e tbl ih =>
      intro acc htbl hacc p hp
      rw [List.foldl_cons] at hp
      refine ih _ (fun x hx => htbl x (List.mem_cons_of_mem _ hx)) ?_ p hp
      intro q hq
      unfold defToBvhStep at hq
      cases he : e.snd with
      | none =>
        rw [he] at hq
        exact hacc q hq
      | some defName =>
        rw [he] at hq
        dsimp only at hq
        by_cases hcond : ((bvhBoneByName ri.tree e.fst).isSome
            && (defFind ri.defSkel defName).isSome
            && !(ri.skipDefBones.contains defName)) = true
        · rw [if_pos hcond] at hq
          simp only [Bool.and_eq_true, Bool.not_eq_true'] at hcond
          rcases mem_objSet hq with rfl | hq2
          · refine ⟨?_, hcond.left.left, hcond.left.right, hcond.right⟩
            have := htbl e (List.mem_cons_self _ _)
            rwa [← he]
          · exact hacc q hq2
        · rw [if_neg hcond] at hq
          exact hacc q hq
  intro p hp
  exact main (mappingOf ri) [] (fun e he => he) (by intro q hq; simp at hq) p hp

/-- Inclusion: any table entry that passes the existence filter puts its
target among the mapped DEF names - whether or not the source joint has a
rotation track in the clip. -/
theorem mapping_entry_included (ri : RetIn) (bvhName defName : String)
    (hm : (bvhName, some defName) ∈ mappingOf ri)
    (hb : (bvhBoneByName ri.tree bvhName).isSome = true)
    (hd : (defFind ri.defSkel defName).isSome = true)
    (hs : ri.skipDefBones.contains defName = false) :
    defName ∈ mappedDefNames ri := by
  rcases List.append_of_mem hm with ⟨l1, l2, hsplit⟩
  unfold mappedDefNames defToBvhName
  rw [hsplit, List.foldl_append, List.foldl_cons]
  refine defToBvh_fold_keys_mono ri l2 _ defName ?_
  unfold defToBvhStep
  dsimp only
  rw [if_pos]
  · exact objSet_mem_key _ _ _
  · rw [hb, hd, hs]
    rfl

/-- Every mapped DEF name contributes its rotation track to the clip. -/
theorem mapped_rot_track_mem (ri : RetIn) (hq : quatTracksOf ri ≠ [])
    (n : String) (hn : n ∈ mappedDefNames ri) :
    OutTrack.rot (n ++ ".quaternion") (timesOf ri)
        ((List.range (fcOf ri)).map ((retOut ri).out n))
      ∈ (retargetBVHToDefClip ri).tracks := by
  unfold retargetBVHToDefClip
  cases hqt : quatTracksOf ri with
  | nil => exact absurd hqt hq
  | cons a as =>
    dsimp only
    apply List.mem_append.mpr
    left
    unfold rotTracksOf
    exact List.mem_map_of_mem _ hn

/-- Every rotation track of the clip arises from a mapped DEF name. -/
theorem rot_track_from_mapped (ri : RetIn) :
    ∀ tr ∈ (retargetBVHToDefClip ri).tracks, OutTrack.isRot tr = true →
      ∃ n ∈ mappedDefNames ri,
        tr = OutTrack.rot (n ++ ".quaternion") (timesOf ri)
          ((List.range (fcOf ri)).map ((retOut ri).out n)) := by
  intro tr htr hrot
  unfold retargetBVHToDefClip at htr
  cases hqt : quatTracksOf ri with
  | nil =>
    rw [hqt] at htr
    simp at htr
  | cons a as =>
    rw [hqt] at htr
    dsimp only at htr
    rcases List.mem_append.mp htr with h1 | h1
    · unfold rotTracksOf at h1
      rcases List.mem_map.mp h1 with ⟨n, hn, he⟩
      exact ⟨n, hn, he.symm⟩
    · cases hrt : rootPosTrackOf ri with
      | none =>
        rw [hrt] at h1
        simp at h1
      | some t =>
        rw [hrt] at h1
        simp at h1
        obtain ⟨nm, tms, vals, ht⟩ := rootPosTrackOf_is_pos hrt
        rw [h1, ht] at hrot
        simp [OutTrack.isRot] at hrot

/-- The clip contains exactly one rotation track per mapped DEF name. -/
theorem rot_track_count (ri : RetIn) (hq : quatTracksOf ri ≠ []) :
    ((retargetBVHToDefClip ri).tracks.filter OutTrack.isRot).length
      = (mappedDefNames ri).length := by
  unfold retargetBVHToDefClip
  cases hqt : quatTracksOf ri with
  | nil => exact absurd hqt hq
  | cons a as =>
    dsimp only
    rw [List.filter_append]
    have h1 : (rotTracksOf ri).filter OutTrack.isRot = rotTracksOf ri := by
      apply List.filter_eq_self.mpr
      intro tr htr
      rcases List.mem_map.mp htr with ⟨n, _, he⟩
      rw [← he]
      rfl
    have h2 : ((rootPosTrackOf ri).toList.filter OutTrack.isRot) = [] := by
      cases hrt : rootPosTrackOf ri with
      | none => rfl
      | some t =>
        obtain ⟨nm, tms, vals, ht⟩ := rootPosTrackOf_is_pos hrt
        subst ht
        rfl
    rw [h1, h2, List.length_append, List.length_nil]
    unfold rotTracksOf
    rw [List.length_map]
    exact Nat.add_zero _

/-- C5 amended: a mapping-table entry is dropped precisely by the existence
filter - its target is in the output mapping iff some entry for it names a
source bone present in the loaded skeleton (and an existing, non-skipped DEF
bone); a source bone that merely lacks a rotation track is still retargeted.
The clip's rotation tracks are exactly one per mapped DEF name. -/
theorem c5_amended_exclusion_by_missing_bone (ri : RetIn)
    (hq : quatTracksOf ri ≠ []) :
    (∀ p ∈ defToBvhName ri,
        (p.snd, some p.fst) ∈ mappingOf ri
          ∧ (bvhBoneByName ri.tree p.snd).isSome = true
          ∧ (defFind ri.defSkel p.fst).isSome = true
          ∧ ri.skipDefBones.contains p.fst = false)
      ∧ (∀ bvhName defName, (bvhName, some defName) ∈ mappingOf ri →
          (bvhBoneByName ri.tree bvhName).isSome = true →
          (defFind ri.defSkel defName).isSome = true →
          ri.skipDefBones.contains defName = false →
          defName ∈ mappedDefNames ri)
      ∧ (∀ n ∈ mappedDefNames ri,
          OutTrack.rot (n ++ ".quaternion") (timesOf ri)
              ((List.range (fcOf ri)).map ((retOut ri).out n))
            ∈ (retargetBVHToDefClip ri).tracks)
      ∧ (∀ tr ∈ (retargetBVHToDefClip ri).tracks, OutTrack.isRot tr = true →
          ∃ n ∈ mappedDefNames ri,
            tr = OutTrack.rot (n ++ ".quaternion") (timesOf ri)
              ((List.range (fcOf ri)).map ((retOut ri).out n)))
      ∧ ((retargetBVHToDefClip ri).tracks.filter OutTrack.isRot).length
          = (mappedDefNames ri).length :=
  ⟨defToBvhName_entry_spec ri,
   mapping_entry_included ri,
   mapped_rot_track_mem ri hq,
   rot_track_from_mapped ri,
   rot_track_count ri hq⟩

/-- Witness for the amended C5 at the missing-track fixture. -/
theorem c5_witness :
    quatTracksOf wRiC ≠ []
      ∧ ((retargetBVHToDefClip wRiC).tracks.filter OutTrack.isRot).length
          = (mappedDefNames wRiC).length
      ∧ "DEF-spine.001" ∈ mappedDefNames wRiC :=
  ⟨by decide,
   (c5_amended_exclusion_by_missing_bone wRiC (by decide)).2.2.2.2,
   (c5_amended_exclusion_by_missing_bone wRiC (by decide)).2.1 "Spine"
     "DEF-spine.001" (by decide) (by decide) (by decide) (by decide)⟩

/-- The same retarget call with a given supplied body height. -/
def withHeight (ri : RetIn) (h : ℚ) : RetIn :=
  { ri with bodyMeshHeight := some h }

theorem getD_map_range {α : Type} (f : ℕ → α) (n i : ℕ) (d : α) :
    ((List.range n).map f).getD i d = if i < n then f i else d := by
  by_cases hi : i < n
  · rw [if_pos hi]
    rw [List.getD_eq_getElem?_getD, List.getElem?_map, List.getElem?_range hi]
    rfl
  · rw [if_neg hi]
    rw [List.getD_eq_getElem?_getD, List.getElem?_map]
    have : (List.range n)[i]? = none := by
      rw [List.getElem?_eq_none]
      simpa using Nat.le_of_not_lt hi
    rw [this]
    rfl

/-- C4: for a fixed source clip and skeleton, the height scale is the
supplied body height divided by the measured (clamped) source height, the
root position track is built from it, and doubling the supplied body height
exactly doubles, per axis, the offset of every output root-position sample
from the target joint's rest position. -/
theorem c4_root_translation_scale_law (ri : RetIn) (h : ℚ) (d : String)
    (tr : RawTrack) (b : DefBone)
    (hd : rootPosDefOf ri = some d)
    (htr : objGet (posTracksOf ri) ri.tree.name = some tr)
    (hb : defFind ri.defSkel d = some b) :
    heightScaleOf (withHeight ri h) = h / bvhHeightOf ri.tree
      ∧ heightScaleOf (withHeight ri (2 * h)) = 2 * h / bvhHeightOf ri.tree
      ∧ rootPosTrackOf (withHeight ri h)
          = some (OutTrack.pos (b.name ++ ".position") tr.times
              (scaledRootValues b.pos
                ⟨tr.values.getD 0 0, tr.values.getD 1 0, tr.values.getD 2 0⟩
                (heightScaleOf (withHeight ri h)) tr.values))
      ∧ rootPosTrackOf (withHeight ri (2 * h))
          = some (OutTrack.pos (b.name ++ ".position") tr.times
              (scaledRootValues b.pos
                ⟨tr.values.getD 0 0, tr.values.getD 1 0, tr.values.getD 2 0⟩
                (heightScaleOf (withHeight ri (2 * h))) tr.values))
      ∧ (∀ i ref,
          ((scaledRootValues b.pos ref (heightScaleOf (withHeight ri (2 * h)))
              tr.values).getD i b.pos).x - b.pos.x
            = 2 * (((scaledRootValues b.pos ref (heightScaleOf (withHeight ri h))
                tr.values).getD i b.pos).x - b.pos.x)
          ∧ ((scaledRootValues b.pos ref (heightScaleOf (withHeight ri (2 * h)))
              tr.values).getD i b.pos).y - b.pos.y
            = 2 * (((scaledRootValues b.pos ref (heightScaleOf (withHeight ri h))
                tr.values).getD i b.pos).y - b.pos.y)
          ∧ ((scaledRootValues b.pos ref (heightScaleOf (withHeight ri (2 * h)))
              tr.values).getD i b.pos).z - b.pos.z
            = 2 * (((scaledRootValues b.pos ref (heightScaleOf (withHeight ri h))
                tr.values).getD i b.pos).z - b.pos.z)) := by
  have hs1 : heightScaleOf (withHeight ri h) = h / bvhHeightOf ri.tree := by
    unfold heightScaleOf bodyHOf withHeight
    dsimp only
    exact rdiv_eq _ _
  have hs2 : heightScaleOf (withHeight ri (2 * h))
      = 2 * h / bvhHeightOf ri.tree := by
    unfold heightScaleOf bodyHOf withHeight
    dsimp only
    exact rdiv_eq _ _
  have htrack : ∀ h' : ℚ, rootPosTrackOf (withHeight ri h')
      = some (OutTrack.pos (b.name ++ ".position") tr.times
          (scaledRootValues b.pos
            ⟨tr.values.getD 0 0, tr.values.getD 1 0, tr.values.getD 2 0⟩
            (heightScaleOf (withHeight ri h')) tr.values)) := by
    intro h'
    have hd' : rootPosDefOf (withHeight ri h') = some d := hd
    have htr' : objGet (posTracksOf (withHeight ri h'))
        (withHeight ri h').tree.name = some tr := htr
    have hb' : defFind (withHeight ri h').defSkel d = some b := hb
    unfold rootPosTrackOf
    rw [hd', htr']
    dsimp only
    rw [hb']
  refine ⟨hs1, hs2, htrack h, htrack (2 * h), ?_⟩
  intro i ref
  unfold scaledRootValues
  rw [getD_map_range, getD_map_range]
  by_cases hi : i < tr.values.length / 3
  · rw [if_pos hi, if_pos hi]
    dsimp only
    rw [hs1, hs2]
    simp only [radd_eq, rsub_eq, rmul_eq]
    refine ⟨?_, ?_, ?_⟩ <;> ring
  · rw [if_neg hi, if_neg hi]
    refine ⟨?_, ?_, ?_⟩ <;> ring

/-- Witness for C4 at the CMU fixture with supplied heights 7/4 and 7/2. -/
theorem c4_witness :
    rootPosDefOf wRi = some "DEF-spine"
      ∧ heightScaleOf (withHeight wRi (mkRat 7 4))
          = mkRat 7 4 / bvhHeightOf wRi.tree
      ∧ (((scaledRootValues ⟨0, mkRat 9 10, 0⟩ vzero
            (heightScaleOf (withHeight wRi (2 * mkRat 7 4)))
            [1, 2, 3]).getD 0 ⟨0, mkRat 9 10, 0⟩).x - 0
          = 2 * (((scaledRootValues ⟨0, mkRat 9 10, 0⟩ vzero
              (heightScaleOf (withHeight wRi (mkRat 7 4)))
              [1, 2, 3]).getD 0 ⟨0, mkRat 9 10, 0⟩).x - 0)) := by
  have hmain := c4_root_translation_scale_law wRi (mkRat 7 4) "DEF-spine"
    ⟨"Hips.position", [0], [1, 2, 3]⟩ ⟨"DEF-spine", none, qid, ⟨0, mkRat 9 10, 0⟩⟩
    (by decide) (by decide) (by decide)
  refine ⟨by decide, hmain.1, ?_⟩
  have := (hmain.2.2.2.2 0 vzero).1
  simpa using this
